import Mathlib

/-!
The rtgo messaging core: route resolver, connection actor and message envelope

A shallow embedding of `app.go` and `conn.go` of the rtgo real-time messaging
package, with the properties of its specification stated over the embedding.

Conventions of the embedding:

* a Go `string` and a Go `[]byte` are both sequences of bytes (`List (Fin 256)`);
* a Go `map[string]V` is an association list; the order of the list is the
  order in which one `range` loop visits it, which Go leaves unspecified, so
  every statement is made for an arbitrary order;
* a run-time panic (index out of range, nil dereference) is an `Except.error`;
* pointers to connections and rooms are addresses into a heap carried by the
  application state; the nil pointer only ever arises from a map miss and is
  the `none` of the lookup;
* a channel is the sequence of values sent on it so far, in order.
-/

namespace Rtgo

/-! ## Strings, byte slices and maps -/

abbrev Byte := Fin 256

abbrev GoString := List Byte

abbrev Bytes := List Byte

/-- The bytes of an ASCII literal. -/
def ascii (s : String) : GoString :=
  s.toList.map (fun ch => Fin.ofNat ch.toNat)

/-- Go `strings.HasPrefix`. -/
def HasPrefix (s pre : GoString) : Bool :=
  pre.isPrefixOf s

/-- A Go `map[string]V`, in the order one `range` visits it. -/
abbrev GoMap (V : Type) := List (GoString × V)

/-- Map lookup `m[k]` with the comma-ok result: `none` when the key is absent. -/
def mapGet {V : Type} : GoMap V → GoString → Option V
  | [], _ => none
  | (k', v) :: m, k => if k' = k then some v else mapGet m k

/-- Map assignment `m[k] = v`: overwrite the entry of `k`, or add one. -/
def mapSet {V : Type} : GoMap V → GoString → V → GoMap V
  | [], k, v => [(k, v)]
  | (k', v') :: m, k, v => if k' = k then (k, v) :: m else (k', v') :: mapSet m k v

/-- Go `delete(m, k)`. -/
def mapDelete {V : Type} (m : GoMap V) (k : GoString) : GoMap V :=
  m.filter (fun e => decide (e.1 ≠ k))

/-- The keys of a Go map are pairwise distinct. -/
def mapWF {V : Type} (m : GoMap V) : Prop :=
  (m.map Prod.fst).Nodup

instance {V : Type} (m : GoMap V) : Decidable (mapWF m) := by
  unfold mapWF; infer_instance

/-- Run-time panics of the Go code. -/
inductive Panic where
  | indexOutOfRange
  | nilDereference
  deriving DecidableEq, Repr

deriving instance DecidableEq for Except

/-! ## Route resolver (`app.go`, `App.FindRoute`) -/

/-- The two entry points of Go's `regexp` package used by `FindRoute`.
`Compile` is `none` when the pattern does not compile; `FindStringSubmatch`
returns the whole match followed by the capture groups, and the nil slice
(the empty list) when the pattern does not match. -/
structure RegexpLib (R : Type) where
  Compile : GoString → Option R
  FindStringSubmatch : R → GoString → List GoString

/-- The expression `strconv.Atoi(string(b))` for a byte `b`: the conversion
succeeds exactly on the ASCII digits. -/
def atoiByte (b : Byte) : Option Nat :=
  if 48 ≤ b.val ∧ b.val ≤ 57 then some (b.val - 48) else none

/-- The body of the inner loop of `FindRoute` (lines 195-203) for one field
`k, val` of a matching pattern. -/
def resolveField (matched : List GoString) (route : GoMap GoString)
    (kv : GoString × GoString) : Except Panic (GoMap GoString) :=
  if ¬ HasPrefix kv.2 (ascii "$") then
    .ok (mapSet route kv.1 kv.2)
  else
    match kv.2[1]? with
    | none => .error .indexOutOfRange
    | some b =>
      match atoiByte b with
      | none => .ok route
      | some index =>
        match matched[index]? with
        | none => .error .indexOutOfRange
        | some s => .ok (mapSet route kv.1 s)

/-- The body of the outer loop of `FindRoute` (lines 183-204) for one key. -/
def resolveKey {R : Type} (re : RegexpLib R) (Routes : GoMap (GoMap GoString))
    (path : GoString) (route : GoMap GoString) (key : GoString) :
    Except Panic (GoMap GoString) :=
  if ¬ HasPrefix key (ascii "^") then .ok route
  else
    match re.Compile key with
    | none => .ok route
    | some reg =>
      let matched := re.FindStringSubmatch reg path
      if matched.length = 0 then .ok route
      else ((mapGet Routes key).getD []).foldlM (resolveField matched) route

/-- The method `App.FindRoute`. -/
def FindRoute {R : Type} (re : RegexpLib R) (Routes : GoMap (GoMap GoString))
    (path : GoString) : Except Panic (GoMap GoString) :=
  match mapGet Routes path with
  | some d => .ok d
  | none => Routes.foldlM (fun route e => resolveKey re Routes path route e.1) []

/-! ## Message envelope -/

/-- The `Message` struct, with the fields the constructors in `conn.go` fill. -/
structure Message where
  RoomLength : Nat
  Room : GoString
  EventLength : Nat
  Event : GoString
  DstLength : Nat
  Dst : GoString
  SrcLength : Nat
  Src : GoString
  PayloadLength : Nat
  Payload : Bytes
  deriving DecidableEq, Repr

/-- The byte with value `n % 256`. -/
def byteOf (n : Nat) : Byte :=
  ⟨n % 256, Nat.mod_lt n (by decide)⟩

/-- Modelled from the spec: the length prefix written by the absent encoder
`MessageToBytes`, a fixed-width unsigned integer of 4 bytes, big-endian. -/
def putUint32 (n : Nat) : Bytes :=
  [byteOf (n / 2 ^ 24), byteOf (n / 2 ^ 16), byteOf (n / 2 ^ 8), byteOf n]

/-- Modelled from the spec: the absent encoder `MessageToBytes`, a flat
concatenation of the fields, each preceded by its length, in the order
`roomLen, room, eventLen, event, dstLen, dst, srcLen, src, payloadLen,
payload`. -/
def MessageToBytes (m : Message) : Bytes :=
  putUint32 m.RoomLength ++ m.Room ++
  (putUint32 m.EventLength ++ m.Event ++
  (putUint32 m.DstLength ++ m.Dst ++
  (putUint32 m.SrcLength ++ m.Src ++
  (putUint32 m.PayloadLength ++ m.Payload))))

/-- Modelled from the spec: reading one length prefix in the absent decoder
`BytesToMessage`; fails when fewer than 4 bytes remain. -/
def getUint32 : Bytes → Option (Nat × Bytes)
  | b0 :: b1 :: b2 :: b3 :: rest =>
    some (b0.val * 2 ^ 24 + b1.val * 2 ^ 16 + b2.val * 2 ^ 8 + b3.val, rest)
  | _ => none

/-- Modelled from the spec: reading one length-prefixed field in the absent
decoder `BytesToMessage`; fails when the declared length exceeds the remaining
buffer. The result is the declared length, the field and the rest. -/
def getField (buf : Bytes) : Option (Nat × Bytes × Bytes) :=
  match getUint32 buf with
  | none => none
  | some (n, rest) =>
    if n ≤ rest.length then some (n, rest.take n, rest.drop n) else none

/-- Modelled from the spec: the absent decoder `BytesToMessage`. It reads the
five fields in order and requires that the bytes consumed are exactly the
buffer; `none` is the `FrameError` of the spec, with no partial message. -/
def BytesToMessage (data : Bytes) : Option Message :=
  match getField data with
  | none => none
  | some (rl, room, b1) =>
    match getField b1 with
    | none => none
    | some (el, event, b2) =>
      match getField b2 with
      | none => none
      | some (dl, dst, b3) =>
        match getField b3 with
        | none => none
        | some (sl, src, b4) =>
          match getField b4 with
          | none => none
          | some (pl, payload, b5) =>
            if b5 = [] then
              some { RoomLength := rl, Room := room, EventLength := el, Event := event,
                     DstLength := dl, Dst := dst, SrcLength := sl, Src := src,
                     PayloadLength := pl, Payload := payload }
            else none

/-- A well-formed message: every length field is the byte length of its field
and fits in 32 bits. -/
def Message.WellFormed (m : Message) : Prop :=
  (m.RoomLength = m.Room.length ∧ m.Room.length < 2 ^ 32) ∧
  (m.EventLength = m.Event.length ∧ m.Event.length < 2 ^ 32) ∧
  (m.DstLength = m.Dst.length ∧ m.Dst.length < 2 ^ 32) ∧
  (m.SrcLength = m.Src.length ∧ m.Src.length < 2 ^ 32) ∧
  (m.PayloadLength = m.Payload.length ∧ m.Payload.length < 2 ^ 32)

/-! ## Application state -/

abbrev ConnPtr := Nat

abbrev RoomPtr := Nat

/-- The `Conn` struct. `Send` is the outbound queue (a channel of frames); a
send on it is modelled at its completion, as an append. `closed` records
`Socket.Close()`. -/
structure Conn where
  Id : GoString
  Send : List Bytes
  Rooms : GoMap RoomPtr
  Privilege : GoString
  closed : Bool

/-- The value carried by a room's `Send` channel: a sending connection and a
raw frame. -/
structure RoomMessage where
  Sender : ConnPtr
  Data : Bytes
  deriving DecidableEq, Repr

/-- The `Room` struct as `App.NewRoom` builds it: a name, a member map and the
four channels. -/
structure Room where
  Name : GoString
  Members : GoMap ConnPtr
  Stopchan : List Bool
  Joinchan : List ConnPtr
  Leavechan : List ConnPtr
  Send : List RoomMessage

/-- The `Database` that `App.NewDatabase` configures, through the two methods
`SendView` calls on it: `GetObj` is `none` on an error return, `GetAllObjs` is
the nil slice on an error return. Records are opaque byte strings. -/
structure Database where
  GetObj : GoString → GoString → Option Bytes
  GetAllObjs : GoString → List Bytes

/-- The template set that `App.Parse` loads, through the method `SendView`
calls on it: the text `ExecuteTemplate` writes into the buffer for a template
name and a collection. -/
structure Template where
  ExecuteTemplate : GoString → List Bytes → GoString

/-- The `App` fields used by the messaging core, together with the heap of the
connections and rooms they point to. -/
structure App where
  Routes : GoMap (GoMap GoString)
  ConnManager : GoMap ConnPtr
  RoomManager : GoMap RoomPtr
  DB : Option Database
  Templates : Option Template
  conns : ConnPtr → Conn
  rooms : RoomPtr → Room
  nextConn : ConnPtr
  nextRoom : RoomPtr

/-- The function `NewApp`: empty registries; the database and the template
set are the nil pointers until `NewDatabase` and `Parse` set them. -/
def NewApp : App :=
  { Routes := [], ConnManager := [], RoomManager := [], DB := none, Templates := none,
    conns := fun _ => { Id := [], Send := [], Rooms := [], Privilege := [], closed := false },
    rooms := fun _ => { Name := [], Members := [], Stopchan := [], Joinchan := [],
                        Leavechan := [], Send := [] },
    nextConn := 0, nextRoom := 0 }

/-- The channel send `c.Send <- data` on a connection's outbound queue. -/
def connSend (c : ConnPtr) (data : Bytes) (a : App) : App :=
  { a with
      conns := Function.update a.conns c
        { (a.conns c) with Send := (a.conns c).Send ++ [data] } }

/-- The method `App.NewConnection`. The transport upgrade, the generated
identifier and the privilege read from the cookie are inputs; `none` is the
error return of a failed upgrade. -/
def NewConnection (upgraded : Bool) (id privilege : GoString) (a : App) :
    Option (ConnPtr × App) :=
  if upgraded then
    let c := a.nextConn
    some (c, { a with
      conns := Function.update a.conns c
        { Id := id, Send := [], Rooms := [], Privilege := privilege, closed := false },
      nextConn := a.nextConn + 1,
      ConnManager := mapSet a.ConnManager id c })
  else none

/-- The method `App.NewRoom`. The room's control loop is started here in the
source; it is a separate task and takes no step in this function. -/
def NewRoom (name : GoString) (a : App) : RoomPtr × App :=
  let r := a.nextRoom
  (r, { a with
    rooms := Function.update a.rooms r
      { Name := name, Members := [], Stopchan := [], Joinchan := [], Leavechan := [],
        Send := [] },
    nextRoom := a.nextRoom + 1,
    RoomManager := mapSet a.RoomManager name r })

/-- Modelled from the spec: the absent method `Room.Join`, which submits a
join request to the room's control loop and does not touch the member set. -/
def Room.Join (room : RoomPtr) (c : ConnPtr) (a : App) : App :=
  { a with
      rooms := Function.update a.rooms room
        { (a.rooms room) with Joinchan := (a.rooms room).Joinchan ++ [c] } }

/-- The channel send `room.Leavechan <- c`. -/
def leaveSend (room : RoomPtr) (c : ConnPtr) (a : App) : App :=
  { a with
      rooms := Function.update a.rooms room
        { (a.rooms room) with Leavechan := (a.rooms room).Leavechan ++ [c] } }

/-- Modelled from the spec: the absent method `Room.Leave`, which submits a
leave request to the room's control loop and does not touch the member set. -/
def Room.Leave (room : RoomPtr) (c : ConnPtr) (a : App) : App :=
  leaveSend room c a

/-- Modelled from the spec: the absent method `Room.Emit`, which submits a
broadcast request (sending connection, raw frame) to the room's control loop. -/
def Room.Emit (room : RoomPtr) (c : ConnPtr) (data : Bytes) (a : App) : App :=
  { a with
      rooms := Function.update a.rooms room
        { (a.rooms room) with Send := (a.rooms room).Send ++ [{ Sender := c, Data := data }] } }

/-! ## Connection actor (`conn.go`) -/

/-- The method `Conn.Join`. -/
def Conn.Join (c : ConnPtr) (name : GoString) (a : App) : App :=
  let ra : RoomPtr × App :=
    match mapGet a.RoomManager name with
    | some room => (room, a)
    | none => NewRoom name a
  let a1 : App := { ra.2 with
      conns := Function.update ra.2.conns c
        { (ra.2.conns c) with Rooms := mapSet (ra.2.conns c).Rooms name ra.1 } }
  Room.Join ra.1 c a1

/-- The method `Conn.Leave`. -/
def Conn.Leave (c : ConnPtr) (name : GoString) (a : App) : App :=
  match mapGet a.RoomManager name with
  | some room =>
    let a1 : App := { a with
      conns := Function.update a.conns c
        { (a.conns c) with Rooms := mapDelete (a.conns c).Rooms (a.rooms room).Name } }
    Room.Leave room c a1
  | none => a

/-- The method `Conn.Emit`. -/
def Conn.Emit (c : ConnPtr) (data : Bytes) (msg : Message) (a : App) : App :=
  match mapGet a.RoomManager msg.Room with
  | some room => Room.Emit room c data a
  | none => a

/-- The library functions `SendView` calls: `html.UnescapeString` and
`json.Marshal` (`none` on an error). -/
structure Collaborators where
  UnescapeString : GoString → GoString
  Marshal : GoMap GoString → Option Bytes

/-- The index expression `m[k]` on a `map[string]string`: the empty string
when the key is absent. -/
def mapIndex (m : GoMap GoString) (k : GoString) : GoString :=
  (mapGet m k).getD []

/-- The `collection` that `SendView` passes to the template (lines 62-71).
The calls `c.Application.DB.GetObj` and `c.Application.DB.GetAllObjs` read
`db.Name` first (db.go lines 95 and 44), which is a nil dereference when no
database is configured. -/
def viewCollection (db : Option Database) (route : GoMap GoString) :
    Except Panic (List Bytes) :=
  match mapGet route (ascii "table") with
  | some _ =>
    match mapGet route (ascii "key") with
    | some _ =>
      match db with
      | none => .error .nilDereference
      | some d =>
        match d.GetObj (mapIndex route (ascii "table")) (mapIndex route (ascii "key")) with
        | some obj => .ok [obj]
        | none => .ok []
    | none =>
      match db with
      | none => .error .nilDereference
      | some d => .ok (d.GetAllObjs (mapIndex route (ascii "table")))
  | none => .ok []

/-- The response envelope `SendView` builds (lines 83-94). -/
def responseMessage (id : GoString) (payload : Bytes) : Message :=
  { RoomLength := (ascii "root").length, Room := ascii "root",
    EventLength := (ascii "response").length, Event := ascii "response",
    DstLength := id.length, Dst := id,
    SrcLength := id.length, Src := id,
    PayloadLength := payload.length, Payload := payload }

/-- The map `data` that `SendView` marshals (lines 72-77). -/
def viewData (ext : Collaborators) (t : Template) (route : GoMap GoString)
    (collection : List Bytes) : GoMap GoString :=
  let doc := t.ExecuteTemplate (mapIndex route (ascii "template")) collection
  [(ascii "view", mapIndex route (ascii "template")),
   (ascii "template", ext.UnescapeString doc),
   (ascii "controllers", mapIndex route (ascii "controllers"))]

/-- The method `Conn.SendView`. The call `c.Application.Templates.ExecuteTemplate`
is a nil dereference when no template set is loaded. A panic precedes the one
write of the method, the send on `c.Send`. -/
def SendView {R : Type} (re : RegexpLib R) (ext : Collaborators) (c : ConnPtr)
    (path : GoString) (a : App) : Except Panic App :=
  match FindRoute re a.Routes path with
  | .error p => .error p
  | .ok route =>
    match mapGet route (ascii "template") with
    | none => .ok a
    | some _ =>
      match viewCollection a.DB route with
      | .error p => .error p
      | .ok collection =>
        match a.Templates with
        | none => .error .nilDereference
        | some t =>
          match ext.Marshal (viewData ext t route collection) with
          | none => .ok a
          | some payload =>
            .ok (connSend c (MessageToBytes (responseMessage (a.conns c).Id payload)) a)

/-- The method `Conn.HandleData`. The message pointer is `none` when nil. The
closing call to the application's event emitter runs the handlers the hosting
application registered; the core registers none, and the call leaves the
state of the core as it is. -/
def HandleData {R : Type} (re : RegexpLib R) (ext : Collaborators) (c : ConnPtr)
    (data : Bytes) (msg : Option Message) (a : App) : Except Panic App :=
  match msg with
  | none => .error .nilDereference
  | some msg =>
    if msg.Event = ascii "join" then .ok (Conn.Join c msg.Room a)
    else if msg.Event = ascii "leave" then .ok (Conn.Leave c msg.Room a)
    else if msg.Event = ascii "request" then SendView re ext c msg.Payload a
    else if msg.Dst ≠ [] then
      match mapGet (a.conns c).Rooms msg.Room with
      | none => .error .nilDereference
      | some room =>
        match mapGet (a.rooms room).Members msg.Dst with
        | some dst => .ok (connSend dst data a)
        | none => .ok a
    else .ok (Conn.Emit c data msg a)

/-- The terminal error of `Socket.ReadMessage`: the clean close `io.EOF`, or
any other error. -/
inductive ReadError where
  | EOF
  | other
  deriving DecidableEq, Repr

/-- The synthetic notification of `ReadPump` (lines 139-150). -/
def leftMessage (name id : GoString) : Message :=
  { RoomLength := name.length, Room := name,
    EventLength := (ascii "left").length, Event := ascii "left",
    DstLength := 0, Dst := [],
    SrcLength := id.length, Src := id,
    PayloadLength := id.length, Payload := id }

/-- The loop over `c.Rooms` of `ReadPump` on a clean close (lines 138-152). -/
def emitLeft (c : ConnPtr) (a : App) : App :=
  (a.conns c).Rooms.foldl
    (fun s e => Room.Emit e.2 c (MessageToBytes (leftMessage e.1 (s.conns c).Id)) s) a

/-- The deferred function of `ReadPump` (lines 120-125). -/
def teardown (c : ConnPtr) (a : App) : App :=
  let a1 := (a.conns c).Rooms.foldl (fun s e => leaveSend e.2 c s) a
  { a1 with conns := Function.update a1.conns c { (a1.conns c) with closed := true } }

/-- The iterations of the `for` loop of `ReadPump` that read a frame (lines
133 and 156), on the frames the socket delivers. The result is the state
after the last frame, or the state and the panic of the `HandleData` call that
panicked; a panic of `HandleData` precedes every write of that call. -/
def handleFrames {R : Type} (re : RegexpLib R) (ext : Collaborators) (c : ConnPtr) :
    List Bytes → App → App × Option Panic
  | [], a => (a, none)
  | data :: rest, a =>
    match HandleData re ext c data (BytesToMessage data) a with
    | .ok a1 => handleFrames re ext c rest a1
    | .error p => (a, some p)

/-- The `for` loop of `ReadPump` (lines 132-159): the frames, then the
iteration that reads the error and breaks (lines 134-155). -/
def readLoop {R : Type} (re : RegexpLib R) (ext : Collaborators) (c : ConnPtr)
    (frames : List Bytes) (err : ReadError) (a : App) : App × Option Panic :=
  match handleFrames re ext c frames a with
  | (s, some p) => (s, some p)
  | (s, none) =>
    match err with
    | .EOF => (emitLeft c s, none)
    | .other => (s, none)

/-- The method `Conn.ReadPump`: the loop, then the deferred function, which
also runs when the loop is left by a panic. -/
def ReadPump {R : Type} (re : RegexpLib R) (ext : Collaborators) (c : ConnPtr)
    (frames : List Bytes) (err : ReadError) (a : App) : App × Option Panic :=
  let r := readLoop re ext c frames err a
  (teardown c r.1, r.2)

/-! ## Concrete instances -/

/-- Whether every byte is an ASCII digit. -/
def allDigits (s : GoString) : Bool :=
  s.all (fun b => decide (48 ≤ b.val ∧ b.val ≤ 57))

/-- A regexp engine for the concrete scenarios: every pattern compiles, and the
one pattern it can match is the pattern of the spec's scenario,
`^/user/(\d+)$`. -/
def scenarioRegexp : RegexpLib GoString where
  Compile := fun pat => some pat
  FindStringSubmatch := fun pat s =>
    if pat = ascii "^/user/(\\d+)$" ∧ HasPrefix s (ascii "/user/") = true
        ∧ allDigits (s.drop 6) = true ∧ s.drop 6 ≠ [] then
      [s, s.drop 6]
    else []

/-- The route table of the spec's scenario: the literal `/home` alongside the
pattern `^/user/(\d+)$` mapped to `{id: "$1"}`. -/
def scenarioRoutes : GoMap (GoMap GoString) :=
  [(ascii "/home", [(ascii "template", ascii "home")]),
   (ascii "^/user/(\\d+)$", [(ascii "id", ascii "$1")])]

/-- Library functions for the concrete scenarios: an identity unescape and
a marshaller that returns the rendered template. -/
def scenarioCollaborators : Collaborators where
  UnescapeString := fun t => t
  Marshal := fun data => some (mapIndex data (ascii "template"))

/-- A template set for the concrete scenarios: rendering returns the
template's name. -/
def scenarioTemplates : Template where
  ExecuteTemplate := fun t _ => t

/-- The state of the concrete scenarios: connection `c1` (address 0) has
joined `root`; connection `c2` (address 1) has joined `root` and `lobby`. -/
def scenarioApp : App :=
  match NewConnection true (ascii "c1") (ascii "user")
      { NewApp with Routes := scenarioRoutes, Templates := some scenarioTemplates } with
  | none => NewApp
  | some (c1, a1) =>
    match NewConnection true (ascii "c2") (ascii "user") (Conn.Join c1 (ascii "root") a1) with
    | none => a1
    | some (c2, a2) => Conn.Join c2 (ascii "lobby") (Conn.Join c2 (ascii "root") a2)


/-- The placeholder `"$d"` for a digit `d`. -/
def placeholder (d : Nat) : GoString :=
  ascii "$" ++ [byteOf (48 + d)]

/-- A field value that the inner loop of `FindRoute` resolves without an
out-of-range access against the submatches `matched`: a value that begins
with `$` has a second byte, and when that byte is a digit the digit indexes
into `matched`. -/
def fieldOK (matched : List GoString) (val : GoString) : Bool :=
  !HasPrefix val (ascii "$") ||
    match val[1]? with
    | none => false
    | some b =>
      match atoiByte b with
      | none => true
      | some index => decide (index < matched.length)

/-- A route table in which the pattern of the spec's scenario carries, next to
`{id: "$1"}`, a field whose value is the lone character `$`. -/
def loneDollarRoutes : GoMap (GoMap GoString) :=
  [(ascii "^/user/(\\d+)$", [(ascii "id", ascii "$1"), (ascii "x", ascii "$")])]

/-- Modelled from the spec: the step of a room's control loop (the absent
method `Room.Start`) that takes the oldest pending join request and adds the
requesting connection to the member set, keyed by its id. -/
def Room.processJoin (room : RoomPtr) (a : App) : App :=
  match (a.rooms room).Joinchan with
  | [] => a
  | c :: rest =>
    { a with
        rooms := Function.update a.rooms room
          { (a.rooms room) with
              Members := mapSet (a.rooms room).Members (a.conns c).Id c,
              Joinchan := rest } }

/-- The scenario state after `c1` has joined `lobby` as well and the control
loop of `lobby` (address 1) has taken both join requests: `c1` and `c2` are
members of `lobby`. -/
def lobbyApp : App :=
  Room.processJoin 1 (Room.processJoin 1 (Conn.Join 0 (ascii "lobby") scenarioApp))

/-- A frame of event `chat` in room `lobby` from `c1` addressed to `c2`. -/
def chatMessage : Message :=
  { RoomLength := 5, Room := ascii "lobby", EventLength := 4, Event := ascii "chat",
    DstLength := 2, Dst := ascii "c2", SrcLength := 2, Src := ascii "c1",
    PayloadLength := 2, Payload := ascii "hi" }

/-- A frame of event `request` from `c1` whose payload is a path. -/
def requestMessage (path : GoString) : Message :=
  { RoomLength := 4, Room := ascii "root", EventLength := 7, Event := ascii "request",
    DstLength := 0, Dst := [], SrcLength := 2, Src := ascii "c1",
    PayloadLength := path.length, Payload := path }

/-- The state right after `NewConnection` has created `c1` in a fresh
application. -/
def newcomerApp : App :=
  match NewConnection true (ascii "c1") (ascii "user") NewApp with
  | some (_, a) => a
  | none => NewApp

/-- The synthetic notifications that a clean close of connection `c`, whose
id is `id` and whose joined-room set is `S`, submits to the room at address
`r`: one per entry of `S` that points to `r`, carrying the entry's name. -/
def leftNotifications (c : ConnPtr) (id : GoString) (S : GoMap RoomPtr) (r : RoomPtr) :
    List RoomMessage :=
  (S.filter (fun e => decide (e.2 = r))).map
    (fun e => { Sender := c, Data := MessageToBytes (leftMessage e.1 id) })

/-- Every registered room lies in the allocated part of the heap and carries
the name it is registered under. `NewApp` establishes this and the operations
of the core keep it. -/
def RegistryNamed (a : App) : Prop :=
  ∀ n r, mapGet a.RoomManager n = some r → r < a.nextRoom ∧ (a.rooms r).Name = n

/-! ## The merge of the matching patterns, after the spec -/

/-- The anchored patterns of the table that compile and match `path`, in
iteration order, each with its fields and its submatches. -/
def matchingPatterns {R : Type} (re : RegexpLib R) (Routes : GoMap (GoMap GoString))
    (path : GoString) : GoMap (GoMap GoString) → List (GoMap GoString × List GoString)
  | [] => []
  | e :: rest =>
    if HasPrefix e.1 (ascii "^") = true then
      match re.Compile e.1 with
      | none => matchingPatterns re Routes path rest
      | some reg =>
        if re.FindStringSubmatch reg path = [] then matchingPatterns re Routes path rest
        else ((mapGet Routes e.1).getD [], re.FindStringSubmatch reg path)
          :: matchingPatterns re Routes path rest
    else matchingPatterns re Routes path rest

/-- The resolved field of one field `k, val` of a matching pattern: the pair
written into the result, `none` when the field writes nothing, a panic when
the field cannot be resolved. -/
def resolvedField (matched : List GoString) (kv : GoString × GoString) :
    Except Panic (Option (GoString × GoString)) :=
  if HasPrefix kv.2 (ascii "$") = true then
    match kv.2[1]? with
    | none => .error .indexOutOfRange
    | some b =>
      match atoiByte b with
      | none => .ok none
      | some index =>
        match matched[index]? with
        | none => .error .indexOutOfRange
        | some s => .ok (some (kv.1, s))
  else .ok (some (kv.1, kv.2))

/-- The resolved fields of one matching pattern, in iteration order. -/
def patternWrites (matched : List GoString) :
    GoMap GoString → Except Panic (List (GoString × GoString))
  | [] => .ok []
  | kv :: rest =>
    match resolvedField matched kv with
    | .error p => .error p
    | .ok w =>
      match patternWrites matched rest with
      | .error p => .error p
      | .ok ws => .ok (w.toList ++ ws)

/-- The resolved fields of every matching pattern, in iteration order. -/
def allWrites : List (GoMap GoString × List GoString) →
    Except Panic (List (GoString × GoString))
  | [] => .ok []
  | pm :: rest =>
    match patternWrites pm.2 pm.1 with
    | .error p => .error p
    | .ok ws =>
      match allWrites rest with
      | .error p => .error p
      | .ok ws' => .ok (ws ++ ws')

/-- Merging a sequence of resolved fields into a descriptor, from `route`. -/
def mergeInto (route : GoMap GoString) (ws : List (GoString × GoString)) : GoMap GoString :=
  ws.foldl (fun r w => mapSet r w.1 w.2) route

/-- Merging a sequence of resolved fields into an empty descriptor. -/
def mergeWrites (ws : List (GoString × GoString)) : GoMap GoString :=
  mergeInto [] ws

/-- The value a sequence of resolved fields leaves under the field `k`: that
of the latest one that sets `k`; an earlier one stands when no later one sets
`k`. -/
def lastWrite : List (GoString × GoString) → GoString → Option GoString
  | [], _ => none
  | w :: ws, k =>
    match lastWrite ws k with
    | some v => some v
    | none => if w.1 = k then some w.2 else none

/-- A regexp engine for the concrete scenarios with several matching
patterns: every pattern compiles, and a pattern `^` followed by literal bytes
matches the strings that begin with those bytes, the only submatch being the
matched text. -/
def literalRegexp : RegexpLib GoString where
  Compile := fun pat => some pat
  FindStringSubmatch := fun pat s =>
    if HasPrefix pat (ascii "^") = true ∧ HasPrefix s (pat.drop 1) = true then [pat.drop 1]
    else []

/-- A route table with two patterns that both match `/user/42`: they both set
`template`, the first alone sets `title`, the second alone sets `page`. -/
def overlapRoutes : GoMap (GoMap GoString) :=
  [(ascii "^/user", [(ascii "template", ascii "user"), (ascii "title", ascii "Users")]),
   (ascii "/about", [(ascii "template", ascii "about")]),
   (ascii "^/user/4", [(ascii "template", ascii "user4"), (ascii "page", ascii "$0")])]

/-- A route table whose one pattern maps `name` to `$name`, a value that
begins with `$` and is not a placeholder. -/
def dollarNameRoutes : GoMap (GoMap GoString) :=
  [(ascii "^/user/(\\d+)$", [(ascii "name", ascii "$name")])]

/-- A route table whose one pattern maps `ref` to `$1abc`, a value that
begins with a placeholder and goes on. -/
def dollarSuffixRoutes : GoMap (GoMap GoString) :=
  [(ascii "^/user/(\\d+)$", [(ascii "ref", ascii "$1abc")])]

/-- A route table whose one pattern carries the literal field `title` next to
a field whose value is the lone character `$`. -/
def titleDollarRoutes : GoMap (GoMap GoString) :=
  [(ascii "^/user/(\\d+)$", [(ascii "title", ascii "Users"), (ascii "x", ascii "$")])]

/-- The number of capture groups of a pattern of `scenarioRegexp`. -/
def scenarioNumSubexp (pat : GoString) : Nat :=
  if pat = ascii "^/user/(\\d+)$" then 1 else 0

/-- The well-formedness of a route table against a regexp engine whose
patterns have `NumSubexp` capture groups: under every anchored pattern, a
field value that begins with `$` has at least two bytes, and when its second
byte is a digit `d` and the pattern compiles, `d` does not exceed the
pattern's number of capture groups. -/
def routesWellFormed {R : Type} (re : RegexpLib R) (NumSubexp : R → Nat)
    (Routes : GoMap (GoMap GoString)) : Prop :=
  ∀ e ∈ Routes, HasPrefix e.1 (ascii "^") = true → ∀ kv ∈ e.2,
    HasPrefix kv.2 (ascii "$") = true →
      2 ≤ kv.2.length ∧
      ∀ reg, re.Compile e.1 = some reg → ∀ b, kv.2[1]? = some b →
        ∀ d, atoiByte b = some d → d ≤ NumSubexp reg

/-- The registry of `a'` keeps every entry of the registry of `a`, with the
same room. -/
def RegistryKept (a a' : App) : Prop :=
  ∀ n r, mapGet a.RoomManager n = some r → mapGet a'.RoomManager n = some r

/-- A regexp engine in which no pattern compiles. -/
def noCompileRegexp : RegexpLib GoString where
  Compile := fun _ => none
  FindStringSubmatch := fun _ s => [s]

/-- A route table whose pattern carries a literal field next to a
placeholder. -/
def userRoutes : GoMap (GoMap GoString) :=
  [(ascii "/home", [(ascii "template", ascii "home")]),
   (ascii "^/user/(\\d+)$", [(ascii "template", ascii "user"), (ascii "id", ascii "$1")])]

/-- A database for the concrete scenarios: no single object is found, and a
table lists one object, its own name. -/
def scenarioDatabase : Database where
  GetObj := fun _ _ => none
  GetAllObjs := fun table => [table]

/-- A route table whose literal `/items` has a template and a table. -/
def itemRoutes : GoMap (GoMap GoString) :=
  [(ascii "/items", [(ascii "template", ascii "items"), (ascii "table", ascii "items")])]

/-- The state after the socket handler has created `c1` (address 0) in the
application `base` and joined it to `root`. -/
def connectedApp (base : App) : App :=
  match NewConnection true (ascii "c1") (ascii "user") base with
  | some (c, a) => Conn.Join c (ascii "root") a
  | none => base

/-- An application with `itemRoutes`, a template set and a database. -/
def storedApp : App :=
  connectedApp { NewApp with
    Routes := itemRoutes, Templates := some scenarioTemplates, DB := some scenarioDatabase }

/-- An application with `itemRoutes` and a template set, and no database
configured. -/
def storelessApp : App :=
  connectedApp { NewApp with Routes := itemRoutes, Templates := some scenarioTemplates }

/-- An application with the scenario routes and no template set loaded. -/
def templatelessApp : App :=
  connectedApp { NewApp with Routes := scenarioRoutes }

/-- A frame of event `join` from `c2` that names a room. -/
def joinMessage (name : GoString) : Message :=
  { RoomLength := name.length, Room := name, EventLength := 4, Event := ascii "join",
    DstLength := 0, Dst := [], SrcLength := 2, Src := ascii "c2",
    PayloadLength := 0, Payload := [] }

/-! ## Lemmas on maps -/

theorem mapGet_mapSet_self {V : Type} (m : GoMap V) (k : GoString) (v : V) :
    mapGet (mapSet m k v) k = some v := by
  induction m with
  | nil => simp [mapSet, mapGet]
  | cons e m ih =>
    obtain ⟨k', v'⟩ := e
    by_cases hk : k' = k
    · simp [mapSet, mapGet, hk]
    · simp [mapSet, mapGet, hk, ih]

theorem mapGet_mapSet_other {V : Type} (m : GoMap V) (k k' : GoString) (v : V)
    (hne : k' ≠ k) : mapGet (mapSet m k v) k' = mapGet m k' := by
  induction m with
  | nil =>
    have : ¬ k = k' := fun h => hne h.symm
    simp [mapSet, mapGet, this]
  | cons e m ih =>
    obtain ⟨k1, v1⟩ := e
    by_cases hk : k1 = k
    · subst hk
      have : ¬ k1 = k' := fun h => hne h.symm
      simp [mapSet, mapGet, this]
    · by_cases hk' : k1 = k'
      · subst hk'
        simp [mapSet, mapGet, hk]
      · simp [mapSet, mapGet, hk, hk', ih]

theorem mapSet_idem {V : Type} (m : GoMap V) (k : GoString) (v : V) :
    mapSet (mapSet m k v) k v = mapSet m k v := by
  induction m with
  | nil => simp [mapSet]
  | cons e m ih =>
    obtain ⟨k', v'⟩ := e
    by_cases hk : k' = k
    · simp [mapSet, hk]
    · simp [mapSet, hk, ih]

theorem mapGet_isSome_of_mem {V : Type} (m : GoMap V) (k : GoString)
    (h : k ∈ m.map Prod.fst) : ∃ v, mapGet m k = some v := by
  induction m with
  | nil => simp at h
  | cons e m ih =>
    obtain ⟨k', v'⟩ := e
    by_cases hk : k' = k
    · exact ⟨v', by simp [mapGet, hk]⟩
    · have hmem : k ∈ m.map Prod.fst := by
        simp only [List.map_cons, List.mem_cons] at h
        rcases h with h | h
        · exact absurd h.symm hk
        · exact h
      obtain ⟨v, hv⟩ := ih hmem
      exact ⟨v, by simp [mapGet, hk, hv]⟩

theorem mem_keys_of_mapGet {V : Type} (m : GoMap V) (k : GoString) (v : V)
    (h : mapGet m k = some v) : k ∈ m.map Prod.fst := by
  induction m with
  | nil => simp [mapGet] at h
  | cons e m ih =>
    obtain ⟨k', v'⟩ := e
    by_cases hk : k' = k
    · simp [hk]
    · simp only [mapGet, hk, if_false] at h
      simp [ih h]

theorem mapDelete_of_not_mem {V : Type} (m : GoMap V) (k : GoString)
    (h : mapGet m k = none) : mapDelete m k = m := by
  induction m with
  | nil => simp [mapDelete]
  | cons e m ih =>
    obtain ⟨k', v'⟩ := e
    by_cases hk : k' = k
    · simp [mapGet, hk] at h
    · simp only [mapGet, hk, if_false] at h
      have hrest := ih h
      have hd : decide ((k', v').1 ≠ k) = true := by simpa using hk
      simp only [mapDelete] at hrest ⊢
      rw [List.filter_cons, if_pos hd, hrest]

/-! ## Lemmas on the loops of `FindRoute` -/

theorem resolveField_ok (matched : List GoString) (route : GoMap GoString)
    (kv : GoString × GoString) (h : fieldOK matched kv.2 = true) :
    ∃ r, resolveField matched route kv = .ok r ∧
      ∀ k, k ≠ kv.1 → mapGet r k = mapGet route k := by
  unfold resolveField
  by_cases hp : HasPrefix kv.2 (ascii "$") = true
  · simp only [fieldOK, hp, Bool.not_true, Bool.false_or] at h
    simp only [hp, not_true_eq_false, if_false]
    cases hb : kv.2[1]? with
    | none => simp [hb] at h
    | some b =>
      simp only [hb] at h ⊢
      cases hi : atoiByte b with
      | none => exact ⟨route, rfl, fun _ _ => rfl⟩
      | some index =>
        simp only [hi, decide_eq_true_eq] at h ⊢
        obtain ⟨s, hs⟩ : ∃ s, matched[index]? = some s := by
          cases hm : matched[index]? with
          | none =>
            rw [List.getElem?_eq_none_iff] at hm
            omega
          | some s => exact ⟨s, rfl⟩
        simp only [hs]
        exact ⟨_, rfl, fun k hk => mapGet_mapSet_other _ _ _ _ hk⟩
  · simp only [hp, not_false_eq_true, if_true]
    exact ⟨_, rfl, fun k hk => mapGet_mapSet_other _ _ _ _ hk⟩

theorem foldlM_resolveField_ok (matched : List GoString) (fields : GoMap GoString)
    (h : ∀ kv ∈ fields, fieldOK matched kv.2 = true) (route : GoMap GoString) :
    ∃ r, fields.foldlM (resolveField matched) route = .ok r ∧
      ∀ k, k ∉ fields.map Prod.fst → mapGet r k = mapGet route k := by
  induction fields generalizing route with
  | nil => exact ⟨route, rfl, fun _ _ => rfl⟩
  | cons kv fields ih =>
    obtain ⟨r1, h1, hk1⟩ := resolveField_ok matched route kv (h kv (List.mem_cons_self _ _))
    obtain ⟨r2, h2, hk2⟩ := ih (fun e he => h e (List.mem_cons_of_mem _ he)) r1
    refine ⟨r2, ?_, ?_⟩
    · rw [List.foldlM_cons, h1]
      exact h2
    · intro k hk
      simp only [List.map_cons, List.mem_cons, not_or] at hk
      rw [hk2 k hk.2, hk1 k hk.1]

theorem atoiByte_digit (d : Nat) (hd : d ≤ 9) : atoiByte (byteOf (48 + d)) = some d := by
  have h1 : (48 + d) % 256 = 48 + d := Nat.mod_eq_of_lt (by omega)
  have h2 : 48 + d ≤ 57 := by omega
  simp [atoiByte, byteOf, h1, h2]

theorem resolveField_placeholder (matched : List GoString) (route : GoMap GoString)
    (k : GoString) (d : Nat) (s : GoString) (hd : d ≤ 9)
    (hs : matched[d]? = some s) :
    resolveField matched route (k, placeholder d) = .ok (mapSet route k s) := by
  have hp : HasPrefix (placeholder d) (ascii "$") = true := by
    simp [HasPrefix, placeholder, ascii]
  have hb : (placeholder d)[1]? = some (byteOf (48 + d)) := by
    simp [placeholder, ascii]
  simp [resolveField, hp, hb, atoiByte_digit d hd, hs]

theorem foldlM_resolveField_placeholder (matched : List GoString)
    (fields : GoMap GoString) (hwf : mapWF fields)
    (hok : ∀ kv ∈ fields, fieldOK matched kv.2 = true)
    (k : GoString) (d : Nat) (s : GoString) (hd : d ≤ 9) (hs : matched[d]? = some s)
    (hmem : (k, placeholder d) ∈ fields) (route : GoMap GoString) :
    ∃ r, fields.foldlM (resolveField matched) route = .ok r ∧ mapGet r k = some s := by
  obtain ⟨pre, post, rfl⟩ := List.append_of_mem hmem
  have hpre : ∀ kv ∈ pre, fieldOK matched kv.2 = true :=
    fun kv h => hok kv (List.mem_append_left _ h)
  have hpost : ∀ kv ∈ post, fieldOK matched kv.2 = true :=
    fun kv h => hok kv (List.mem_append_right _ (List.mem_cons_of_mem _ h))
  have hnot : k ∉ post.map Prod.fst := by
    unfold mapWF at hwf
    rw [List.map_append, List.map_cons, List.nodup_append] at hwf
    exact (List.nodup_cons.mp hwf.2.1).1
  obtain ⟨r1, h1, -⟩ := foldlM_resolveField_ok matched pre hpre route
  obtain ⟨r2, h2, hk2⟩ := foldlM_resolveField_ok matched post hpost (mapSet r1 k s)
  refine ⟨r2, ?_, ?_⟩
  · rw [List.foldlM_append, h1]
    show List.foldlM (resolveField matched) r1 ((k, placeholder d) :: post) = _
    rw [List.foldlM_cons, resolveField_placeholder matched r1 k d s hd hs]
    exact h2
  · rw [hk2 k hnot]
    exact mapGet_mapSet_self r1 k s

theorem resolveKey_miss {R : Type} (re : RegexpLib R) (Routes : GoMap (GoMap GoString))
    (path : GoString) (route : GoMap GoString) (key : GoString)
    (h : HasPrefix key (ascii "^") = true → ∀ reg, re.Compile key = some reg →
      re.FindStringSubmatch reg path = []) :
    resolveKey re Routes path route key = .ok route := by
  unfold resolveKey
  by_cases hp : HasPrefix key (ascii "^") = true
  · simp only [hp, not_true_eq_false, if_false]
    cases hc : re.Compile key with
    | none => rfl
    | some reg => simp [h hp reg hc]
  · simp [hp]

theorem resolveKey_hit {R : Type} (re : RegexpLib R) (Routes : GoMap (GoMap GoString))
    (path : GoString) (route : GoMap GoString) (key : GoString) (reg : R)
    (fields : GoMap GoString)
    (hp : HasPrefix key (ascii "^") = true) (hc : re.Compile key = some reg)
    (hne : re.FindStringSubmatch reg path ≠ []) (hf : mapGet Routes key = some fields) :
    resolveKey re Routes path route key
      = fields.foldlM (resolveField (re.FindStringSubmatch reg path)) route := by
  have hlen : ¬ (re.FindStringSubmatch reg path).length = 0 := by
    intro h0
    exact hne (List.length_eq_zero.mp h0)
  simp [resolveKey, hp, hc, hlen, hf]

theorem foldlM_resolveKey_miss {R : Type} (re : RegexpLib R)
    (Routes : GoMap (GoMap GoString)) (path : GoString) (L : GoMap (GoMap GoString))
    (h : ∀ key ∈ L.map Prod.fst, HasPrefix key (ascii "^") = true →
      ∀ reg, re.Compile key = some reg → re.FindStringSubmatch reg path = [])
    (route : GoMap GoString) :
    L.foldlM (fun route e => resolveKey re Routes path route e.1) route = .ok route := by
  induction L with
  | nil => rfl
  | cons e L ih =>
    have h1 : resolveKey re Routes path route e.1 = .ok route :=
      resolveKey_miss re Routes path route e.1 (h e.1 (by simp))
    rw [List.foldlM_cons, h1]
    exact ih (fun key hk => h key (by
      simp only [List.map_cons, List.mem_cons]
      exact Or.inr hk))

theorem foldlM_resolveField_at (matched : List GoString)
    (fields : GoMap GoString) (hwf : mapWF fields)
    (hok : ∀ kv ∈ fields, fieldOK matched kv.2 = true)
    (k val s : GoString) (hmem : (k, val) ∈ fields)
    (hres : ∀ r, resolveField matched r (k, val) = .ok (mapSet r k s))
    (route : GoMap GoString) :
    ∃ r, fields.foldlM (resolveField matched) route = .ok r ∧ mapGet r k = some s := by
  obtain ⟨pre, post, rfl⟩ := List.append_of_mem hmem
  have hpre : ∀ kv ∈ pre, fieldOK matched kv.2 = true :=
    fun kv h => hok kv (List.mem_append_left _ h)
  have hpost : ∀ kv ∈ post, fieldOK matched kv.2 = true :=
    fun kv h => hok kv (List.mem_append_right _ (List.mem_cons_of_mem _ h))
  have hnot : k ∉ post.map Prod.fst := by
    unfold mapWF at hwf
    rw [List.map_append, List.map_cons, List.nodup_append] at hwf
    exact (List.nodup_cons.mp hwf.2.1).1
  obtain ⟨r1, h1, -⟩ := foldlM_resolveField_ok matched pre hpre route
  obtain ⟨r2, h2, hk2⟩ := foldlM_resolveField_ok matched post hpost (mapSet r1 k s)
  refine ⟨r2, ?_, ?_⟩
  · rw [List.foldlM_append, h1]
    show List.foldlM (resolveField matched) r1 ((k, val) :: post) = _
    rw [List.foldlM_cons, hres r1]
    exact h2
  · rw [hk2 k hnot]
    exact mapGet_mapSet_self r1 k s

theorem FindRoute_single_pattern {R : Type} (re : RegexpLib R)
    (Routes : GoMap (GoMap GoString)) (path key : GoString) (fields : GoMap GoString)
    (reg : R) (k s : GoString)
    (hlit : mapGet Routes path = none)
    (hkey : mapGet Routes key = some fields)
    (hanchor : HasPrefix key (ascii "^") = true)
    (hcomp : re.Compile key = some reg)
    (hmatch : re.FindStringSubmatch reg path ≠ [])
    (honly : ∀ key' ∈ Routes.map Prod.fst, key' ≠ key →
      HasPrefix key' (ascii "^") = true → ∀ reg', re.Compile key' = some reg' →
        re.FindStringSubmatch reg' path = [])
    (hfold : ∀ route, ∃ r,
      fields.foldlM (resolveField (re.FindStringSubmatch reg path)) route = .ok r ∧
        mapGet r k = some s) :
    ∃ route, FindRoute re Routes path = .ok route ∧ mapGet route k = some s := by
  have hstep : ∀ route, ∃ r, resolveKey re Routes path route key = .ok r ∧
      mapGet r k = some s := by
    intro route
    rw [resolveKey_hit re Routes path route key reg fields hanchor hcomp hmatch hkey]
    exact hfold route
  have hloop : ∀ (L : GoMap (GoMap GoString)),
      (∀ e ∈ L, e.1 ∈ Routes.map Prod.fst) → ∀ route, ∃ r,
        L.foldlM (fun route e => resolveKey re Routes path route e.1) route = .ok r ∧
        ((key ∈ L.map Prod.fst ∨ mapGet route k = some s) → mapGet r k = some s) := by
    intro L
    induction L with
    | nil =>
      intro _ route
      exact ⟨route, rfl, fun h => h.elim (fun h' => by simp at h') id⟩
    | cons e L ih =>
      intro hsub route
      have hsubL : ∀ e' ∈ L, e'.1 ∈ Routes.map Prod.fst :=
        fun e' he' => hsub e' (List.mem_cons_of_mem _ he')
      by_cases he : e.1 = key
      · obtain ⟨r1, h1, hk1⟩ := hstep route
        obtain ⟨r2, h2, hk2⟩ := ih hsubL r1
        refine ⟨r2, ?_, fun _ => hk2 (Or.inr hk1)⟩
        rw [List.foldlM_cons, he, h1]
        exact h2
      · have h1 : resolveKey re Routes path route e.1 = .ok route :=
          resolveKey_miss re Routes path route e.1
            (honly e.1 (hsub e (List.mem_cons_self _ _)) he)
        obtain ⟨r2, h2, hk2⟩ := ih hsubL route
        refine ⟨r2, ?_, ?_⟩
        · rw [List.foldlM_cons, h1]
          exact h2
        · intro h
          apply hk2
          rcases h with h | h
          · left
            simp only [List.map_cons, List.mem_cons] at h
            rcases h with h | h
            · exact absurd h.symm he
            · exact h
          · exact Or.inr h
  obtain ⟨r, hr, hk⟩ := hloop Routes (fun e he => List.mem_map_of_mem _ he) []
  refine ⟨r, ?_, hk (Or.inl (mem_keys_of_mapGet Routes key fields hkey))⟩
  simp only [FindRoute, hlit]
  exact hr

/-! ## Lemmas on the merge of the matching patterns -/

theorem resolveField_eq_resolvedField (matched : List GoString) (route : GoMap GoString)
    (kv : GoString × GoString) :
    resolveField matched route kv
      = (resolvedField matched kv).map (fun w => mergeInto route w.toList) := by
  unfold resolveField resolvedField
  by_cases hp : HasPrefix kv.2 (ascii "$") = true
  · simp only [hp, not_true_eq_false, if_false, if_true]
    cases kv.2[1]? with
    | none => rfl
    | some b =>
      simp only
      cases atoiByte b with
      | none => rfl
      | some index =>
        simp only
        cases matched[index]? with
        | none => rfl
        | some s => rfl
  · simp only [hp, not_false_eq_true, if_true, if_false]
    rfl

theorem mergeInto_append (route : GoMap GoString) (ws ws' : List (GoString × GoString)) :
    mergeInto route (ws ++ ws') = mergeInto (mergeInto route ws) ws' := by
  simp [mergeInto, List.foldl_append]

theorem foldlM_resolveField_eq_patternWrites (matched : List GoString)
    (fields : GoMap GoString) (route : GoMap GoString) :
    fields.foldlM (resolveField matched) route
      = (patternWrites matched fields).map (mergeInto route) := by
  induction fields generalizing route with
  | nil => rfl
  | cons kv fields ih =>
    rw [List.foldlM_cons, resolveField_eq_resolvedField]
    unfold patternWrites
    cases hw : resolvedField matched kv with
    | error p => rfl
    | ok w =>
      show List.foldlM (resolveField matched) (mergeInto route w.toList) fields = _
      rw [ih]
      cases hws : patternWrites matched fields with
      | error p => rfl
      | ok ws =>
        show Except.ok (mergeInto (mergeInto route w.toList) ws) = Except.ok _
        rw [mergeInto_append]

theorem foldlM_resolveKey_eq_allWrites {R : Type} (re : RegexpLib R)
    (Routes : GoMap (GoMap GoString)) (path : GoString) (L : GoMap (GoMap GoString))
    (route : GoMap GoString) :
    L.foldlM (fun route e => resolveKey re Routes path route e.1) route
      = (allWrites (matchingPatterns re Routes path L)).map (mergeInto route) := by
  induction L generalizing route with
  | nil => rfl
  | cons e L ih =>
    rw [List.foldlM_cons]
    unfold matchingPatterns
    by_cases hp : HasPrefix e.1 (ascii "^") = true
    · cases hc : re.Compile e.1 with
      | none =>
        have h1 : resolveKey re Routes path route e.1 = .ok route :=
          resolveKey_miss re Routes path route e.1 (fun _ reg hreg => by
            rw [hc] at hreg
            cases hreg)
        rw [h1]
        simp only [hp, if_true]
        exact ih route
      | some reg =>
        by_cases hm : re.FindStringSubmatch reg path = []
        · have h1 : resolveKey re Routes path route e.1 = .ok route :=
            resolveKey_miss re Routes path route e.1 (fun _ reg' hreg => by
              rw [hc] at hreg
              cases hreg
              exact hm)
          rw [h1]
          simp only [hp, hm, if_true]
          exact ih route
        · have hlen : ¬ (re.FindStringSubmatch reg path).length = 0 :=
            fun h0 => hm (List.length_eq_zero.mp h0)
          have h1 : resolveKey re Routes path route e.1
              = (patternWrites (re.FindStringSubmatch reg path)
                  ((mapGet Routes e.1).getD [])).map (mergeInto route) := by
            rw [← foldlM_resolveField_eq_patternWrites]
            simp [resolveKey, hp, hc, hlen]
          rw [h1]
          simp only [hp, hm, if_true, if_false]
          unfold allWrites
          cases hws : patternWrites (re.FindStringSubmatch reg path)
              ((mapGet Routes e.1).getD []) with
          | error p => rfl
          | ok ws =>
            show List.foldlM (fun route e => resolveKey re Routes path route e.1)
              (mergeInto route ws) L = _
            rw [ih]
            cases hws' : allWrites (matchingPatterns re Routes path L) with
            | error p => rfl
            | ok ws' =>
              show Except.ok (mergeInto (mergeInto route ws) ws') = Except.ok _
              rw [mergeInto_append]
    · have h1 : resolveKey re Routes path route e.1 = .ok route :=
        resolveKey_miss re Routes path route e.1 (fun h => absurd h hp)
      rw [h1]
      simp only [hp]
      exact ih route

theorem lastWrite_cons (w : GoString × GoString) (ws : List (GoString × GoString))
    (k : GoString) :
    lastWrite (w :: ws) k
      = match lastWrite ws k with
        | some v => some v
        | none => if w.1 = k then some w.2 else none := rfl

theorem mapGet_mergeInto (route : GoMap GoString) (ws : List (GoString × GoString))
    (k : GoString) :
    mapGet (mergeInto route ws) k
      = match lastWrite ws k with
        | some v => some v
        | none => mapGet route k := by
  induction ws generalizing route with
  | nil => rfl
  | cons w ws ih =>
    have hcons : mergeInto route (w :: ws) = mergeInto (mapSet route w.1 w.2) ws := rfl
    rw [hcons, ih, lastWrite_cons]
    cases hl : lastWrite ws k with
    | some v => rfl
    | none =>
      simp only
      by_cases hk : w.1 = k
      · rw [if_pos hk, ← hk]
        exact mapGet_mapSet_self _ _ _
      · have hk' : k ≠ w.1 := fun h => hk h.symm
        rw [if_neg hk]
        exact mapGet_mapSet_other _ _ _ _ hk'

theorem mapGet_mergeWrites (ws : List (GoString × GoString)) (k : GoString) :
    mapGet (mergeWrites ws) k = lastWrite ws k := by
  unfold mergeWrites
  rw [mapGet_mergeInto]
  cases lastWrite ws k <;> rfl

theorem resolvedField_ok (matched : List GoString) (kv : GoString × GoString)
    (h : fieldOK matched kv.2 = true) : ∃ w, resolvedField matched kv = .ok w := by
  obtain ⟨r, hr, -⟩ := resolveField_ok matched [] kv h
  rw [resolveField_eq_resolvedField] at hr
  cases hw : resolvedField matched kv with
  | error p =>
    rw [hw] at hr
    cases hr
  | ok w => exact ⟨w, rfl⟩

theorem patternWrites_ok (matched : List GoString) (fields : GoMap GoString)
    (h : ∀ kv ∈ fields, fieldOK matched kv.2 = true) :
    ∃ ws, patternWrites matched fields = .ok ws := by
  obtain ⟨r, hr, -⟩ := foldlM_resolveField_ok matched fields h []
  rw [foldlM_resolveField_eq_patternWrites] at hr
  cases hw : patternWrites matched fields with
  | error p =>
    rw [hw] at hr
    cases hr
  | ok ws => exact ⟨ws, rfl⟩

theorem allWrites_ok (pms : List (GoMap GoString × List GoString))
    (h : ∀ pm ∈ pms, ∀ kv ∈ pm.1, fieldOK pm.2 kv.2 = true) :
    ∃ ws, allWrites pms = .ok ws := by
  induction pms with
  | nil => exact ⟨[], rfl⟩
  | cons pm pms ih =>
    obtain ⟨ws, hws⟩ := patternWrites_ok pm.2 pm.1 (h pm (List.mem_cons_self _ _))
    obtain ⟨ws', hws'⟩ := ih (fun pm' hpm' => h pm' (List.mem_cons_of_mem _ hpm'))
    refine ⟨ws ++ ws', ?_⟩
    unfold allWrites
    rw [hws, hws']

theorem mem_of_mapGet {V : Type} (m : GoMap V) (k : GoString) (v : V)
    (h : mapGet m k = some v) : (k, v) ∈ m := by
  induction m with
  | nil => simp [mapGet] at h
  | cons e m ih =>
    obtain ⟨k', v'⟩ := e
    by_cases hk : k' = k
    · simp only [mapGet, hk, if_true, Option.some.injEq] at h
      subst h
      subst hk
      exact List.mem_cons_self _ _
    · simp only [mapGet, hk, if_false] at h
      exact List.mem_cons_of_mem _ (ih h)

theorem matchingPatterns_mem {R : Type} (re : RegexpLib R)
    (Routes : GoMap (GoMap GoString)) (path : GoString) (L : GoMap (GoMap GoString))
    (pm : GoMap GoString × List GoString)
    (h : pm ∈ matchingPatterns re Routes path L) :
    ∃ key reg, key ∈ L.map Prod.fst ∧ HasPrefix key (ascii "^") = true ∧
      re.Compile key = some reg ∧ re.FindStringSubmatch reg path ≠ [] ∧
      pm = ((mapGet Routes key).getD [], re.FindStringSubmatch reg path) := by
  induction L with
  | nil => simp [matchingPatterns] at h
  | cons e L ih =>
    have hrest : pm ∈ matchingPatterns re Routes path L →
        ∃ key reg, key ∈ (e :: L).map Prod.fst ∧ HasPrefix key (ascii "^") = true ∧
          re.Compile key = some reg ∧ re.FindStringSubmatch reg path ≠ [] ∧
          pm = ((mapGet Routes key).getD [], re.FindStringSubmatch reg path) := by
      intro h'
      obtain ⟨key, reg, hk, rest⟩ := ih h'
      exact ⟨key, reg, by simp [hk], rest⟩
    unfold matchingPatterns at h
    by_cases hp : HasPrefix e.1 (ascii "^") = true
    · simp only [hp, if_true] at h
      cases hc : re.Compile e.1 with
      | none =>
        simp only [hc] at h
        exact hrest h
      | some reg =>
        simp only [hc] at h
        by_cases hm : re.FindStringSubmatch reg path = []
        · simp only [hm, if_true] at h
          exact hrest h
        · simp only [hm, if_false, List.mem_cons] at h
          rcases h with h | h
          · exact ⟨e.1, reg, by simp, hp, hc, hm, h⟩
          · exact hrest h
    · simp only [hp] at h
      exact hrest h

theorem fieldOK_of_wellFormed {R : Type} (re : RegexpLib R) (NumSubexp : R → Nat)
    (Routes : GoMap (GoMap GoString)) (path : GoString)
    (hgroups : ∀ reg s, re.FindStringSubmatch reg s ≠ [] →
      (re.FindStringSubmatch reg s).length = NumSubexp reg + 1)
    (hwf : routesWellFormed re NumSubexp Routes)
    (pm : GoMap GoString × List GoString)
    (hpm : pm ∈ matchingPatterns re Routes path Routes)
    (kv : GoString × GoString) (hkv : kv ∈ pm.1) : fieldOK pm.2 kv.2 = true := by
  obtain ⟨key, reg, -, hp, hc, hm, rfl⟩ := matchingPatterns_mem re Routes path Routes pm hpm
  cases hget : mapGet Routes key with
  | none =>
    rw [hget] at hkv
    simp at hkv
  | some fields =>
    rw [hget] at hkv
    simp only [Option.getD_some] at hkv
    have hmem := mem_of_mapGet Routes key fields hget
    by_cases hd : HasPrefix kv.2 (ascii "$") = true
    · obtain ⟨hlen, hdigit⟩ := hwf (key, fields) hmem hp kv hkv hd
      have hlt : 1 < kv.2.length := hlen
      have hb : kv.2[1]? = some kv.2[1] := List.getElem?_eq_getElem hlt
      simp only [fieldOK, hd, Bool.not_true, Bool.false_or, hb]
      cases ha : atoiByte kv.2[1] with
      | none => rfl
      | some d =>
        have hle := hdigit reg hc kv.2[1] hb d ha
        have := hgroups reg path hm
        simp only [decide_eq_true_eq]
        omega
    · simp [fieldOK, hd]

theorem FindRoute_ok_of_fieldOK {R : Type} (re : RegexpLib R)
    (Routes : GoMap (GoMap GoString)) (path : GoString)
    (h : ∀ pm ∈ matchingPatterns re Routes path Routes, ∀ kv ∈ pm.1,
      fieldOK pm.2 kv.2 = true) :
    ∃ route, FindRoute re Routes path = .ok route := by
  unfold FindRoute
  cases mapGet Routes path with
  | some d => exact ⟨d, rfl⟩
  | none =>
    simp only
    rw [foldlM_resolveKey_eq_allWrites]
    obtain ⟨ws, hws⟩ := allWrites_ok _ h
    rw [hws]
    exact ⟨_, rfl⟩

theorem scenarioRegexp_groups (reg s : GoString)
    (h : scenarioRegexp.FindStringSubmatch reg s ≠ []) :
    (scenarioRegexp.FindStringSubmatch reg s).length = scenarioNumSubexp reg + 1 := by
  simp only [scenarioRegexp] at h ⊢
  split_ifs at h ⊢ with hc
  · simp [scenarioNumSubexp, hc.1]
  · exact absurd rfl h

theorem userRoutes_wellFormed :
    routesWellFormed scenarioRegexp scenarioNumSubexp userRoutes := by
  intro e he hp kv hkv hd
  have hcases : e = (ascii "/home", [(ascii "template", ascii "home")]) ∨
      e = (ascii "^/user/(\\d+)$",
        [(ascii "template", ascii "user"), (ascii "id", ascii "$1")]) := by
    simpa [userRoutes] using he
  rcases hcases with h | h
  · subst h
    exact absurd hp (by decide)
  · subst h
    have hfield : kv = (ascii "template", ascii "user") ∨ kv = (ascii "id", ascii "$1") := by
      simpa using hkv
    rcases hfield with h | h
    · subst h
      exact absurd hd (by decide)
    · subst h
      refine ⟨by decide, ?_⟩
      intro reg hc b hb d ha
      have hreg : reg = ascii "^/user/(\\d+)$" := by
        have : some (ascii "^/user/(\\d+)$") = some reg := hc
        exact (Option.some.inj this).symm
      have hbyte : b = byteOf 49 := by
        have : some (byteOf 49) = some b := hb
        exact (Option.some.inj this).symm
      subst hreg
      subst hbyte
      have hd1 : d = 1 := by
        have : some 1 = some d := ha
        exact (Option.some.inj this).symm
      subst hd1
      decide

/-! ## Lemmas on the message codec -/

theorem getUint32_putUint32 (n : Nat) (hn : n < 2 ^ 32) (rest : Bytes) :
    getUint32 (putUint32 n ++ rest) = some (n, rest) := by
  have harith : n / 2 ^ 24 % 256 * 2 ^ 24 + n / 2 ^ 16 % 256 * 2 ^ 16
      + n / 2 ^ 8 % 256 * 2 ^ 8 + n % 256 = n := by
    norm_num at hn ⊢
    omega
  simp only [putUint32, byteOf, List.cons_append, List.nil_append, getUint32]
  rw [harith]

theorem getField_putUint32 (field rest : Bytes) (hn : field.length < 2 ^ 32) :
    getField (putUint32 field.length ++ field ++ rest)
      = some (field.length, field, rest) := by
  unfold getField
  rw [List.append_assoc, getUint32_putUint32 field.length hn]
  simp

/-! ## Lemmas on the registries -/

theorem RegistryNamed_NewApp : RegistryNamed NewApp := by
  intro n r h
  simp [NewApp, mapGet] at h

theorem Join_registered (c : ConnPtr) (n : GoString) (a : App) (r : RoomPtr)
    (h : mapGet a.RoomManager n = some r) :
    (Conn.Join c n a).RoomManager = a.RoomManager ∧
    (Conn.Join c n a).nextRoom = a.nextRoom ∧
    ((Conn.Join c n a).conns c).Rooms = mapSet (a.conns c).Rooms n r ∧
    (∀ p, ((Conn.Join c n a).rooms p).Name = (a.rooms p).Name) := by
  refine ⟨?_, ?_, ?_, ?_⟩
  · simp [Conn.Join, h, Room.Join]
  · simp [Conn.Join, h, Room.Join]
  · simp [Conn.Join, h, Room.Join]
  · intro p
    by_cases hp : p = r
    · subst hp
      simp [Conn.Join, h, Room.Join]
    · simp [Conn.Join, h, Room.Join, Function.update_noteq hp]

theorem Join_unregistered (c : ConnPtr) (n : GoString) (a : App)
    (h : mapGet a.RoomManager n = none) :
    (Conn.Join c n a).RoomManager = mapSet a.RoomManager n a.nextRoom ∧
    (Conn.Join c n a).nextRoom = a.nextRoom + 1 ∧
    ((Conn.Join c n a).conns c).Rooms = mapSet (a.conns c).Rooms n a.nextRoom ∧
    ((Conn.Join c n a).rooms a.nextRoom).Name = n ∧
    (∀ p, p ≠ a.nextRoom → ((Conn.Join c n a).rooms p).Name = (a.rooms p).Name) := by
  refine ⟨?_, ?_, ?_, ?_, ?_⟩
  · simp [Conn.Join, h, Room.Join, NewRoom]
  · simp [Conn.Join, h, Room.Join, NewRoom]
  · simp [Conn.Join, h, Room.Join, NewRoom]
  · simp [Conn.Join, h, Room.Join, NewRoom]
  · intro p hp
    simp [Conn.Join, h, Room.Join, NewRoom, Function.update_noteq hp]

theorem RegistryNamed_Join (c : ConnPtr) (n : GoString) (a : App)
    (h : RegistryNamed a) : RegistryNamed (Conn.Join c n a) := by
  intro n' r' hget
  cases hn : mapGet a.RoomManager n with
  | some r =>
    obtain ⟨hRM, hnext, -, hname⟩ := Join_registered c n a r hn
    rw [hRM] at hget
    rw [hnext, hname]
    exact h n' r' hget
  | none =>
    obtain ⟨hRM, hnext, -, hnew, hname⟩ := Join_unregistered c n a hn
    rw [hRM] at hget
    rw [hnext]
    by_cases hnn : n' = n
    · subst hnn
      rw [mapGet_mapSet_self] at hget
      cases hget
      exact ⟨Nat.lt_succ_self _, hnew⟩
    · rw [mapGet_mapSet_other _ _ _ _ hnn] at hget
      obtain ⟨hlt, hnm⟩ := h n' r' hget
      refine ⟨Nat.lt_succ_of_lt hlt, ?_⟩
      rw [hname r' (Nat.ne_of_lt hlt)]
      exact hnm

theorem Leave_registered (c : ConnPtr) (n : GoString) (a : App) (r : RoomPtr)
    (h : mapGet a.RoomManager n = some r) :
    (Conn.Leave c n a).RoomManager = a.RoomManager ∧
    (Conn.Leave c n a).nextRoom = a.nextRoom ∧
    ((Conn.Leave c n a).conns c).Rooms = mapDelete (a.conns c).Rooms (a.rooms r).Name ∧
    (∀ p, ((Conn.Leave c n a).rooms p).Name = (a.rooms p).Name) := by
  refine ⟨?_, ?_, ?_, ?_⟩
  · simp [Conn.Leave, h, Room.Leave, leaveSend]
  · simp [Conn.Leave, h, Room.Leave, leaveSend]
  · simp [Conn.Leave, h, Room.Leave, leaveSend]
  · intro p
    by_cases hp : p = r
    · subst hp
      simp [Conn.Leave, h, Room.Leave, leaveSend]
    · simp [Conn.Leave, h, Room.Leave, leaveSend, Function.update_noteq hp]

theorem Leave_unregistered (c : ConnPtr) (n : GoString) (a : App)
    (h : mapGet a.RoomManager n = none) : Conn.Leave c n a = a := by
  simp [Conn.Leave, h]

theorem RegistryNamed_Leave (c : ConnPtr) (n : GoString) (a : App)
    (h : RegistryNamed a) : RegistryNamed (Conn.Leave c n a) := by
  cases hn : mapGet a.RoomManager n with
  | some r =>
    obtain ⟨hRM, hnext, -, hname⟩ := Leave_registered c n a r hn
    intro n' r' hget
    rw [hRM] at hget
    rw [hnext, hname]
    exact h n' r' hget
  | none =>
    rw [Leave_unregistered c n a hn]
    exact h

theorem RegistryNamed_scenarioApp : RegistryNamed scenarioApp := by
  intro n r h
  have hRM : scenarioApp.RoomManager = [(ascii "root", 0), (ascii "lobby", 1)] := by decide
  rw [hRM] at h
  simp only [mapGet] at h
  split_ifs at h with h1 h2
  · cases h
    subst h1
    exact ⟨by decide, by decide⟩
  · cases h
    subst h2
    exact ⟨by decide, by decide⟩

theorem RegistryNamed_of_same (a a' : App) (h : RegistryNamed a)
    (hRM : a'.RoomManager = a.RoomManager) (hnext : a'.nextRoom = a.nextRoom)
    (hname : ∀ p, (a'.rooms p).Name = (a.rooms p).Name) : RegistryNamed a' := by
  intro n r hget
  rw [hRM] at hget
  rw [hnext, hname]
  exact h n r hget

theorem RegistryNamed_NewConnection (upgraded : Bool) (id privilege : GoString)
    (a a1 : App) (c : ConnPtr) (hnew : NewConnection upgraded id privilege a = some (c, a1))
    (h : RegistryNamed a) : RegistryNamed a1 := by
  unfold NewConnection at hnew
  split_ifs at hnew
  simp only [Option.some.injEq, Prod.mk.injEq] at hnew
  obtain ⟨-, ha⟩ := hnew
  subst ha
  exact RegistryNamed_of_same a _ h rfl rfl (fun _ => rfl)

theorem RegistryNamed_connSend (c : ConnPtr) (data : Bytes) (a : App)
    (h : RegistryNamed a) : RegistryNamed (connSend c data a) :=
  RegistryNamed_of_same a _ h rfl rfl (fun _ => rfl)

theorem Room_Emit_Name (room : RoomPtr) (c : ConnPtr) (data : Bytes) (a : App) (p : RoomPtr) :
    ((Room.Emit room c data a).rooms p).Name = (a.rooms p).Name := by
  by_cases hp : p = room
  · subst hp
    simp [Room.Emit]
  · simp [Room.Emit, Function.update_noteq hp]

theorem RegistryNamed_Emit (c : ConnPtr) (data : Bytes) (msg : Message) (a : App)
    (h : RegistryNamed a) : RegistryNamed (Conn.Emit c data msg a) := by
  unfold Conn.Emit
  cases hr : mapGet a.RoomManager msg.Room with
  | none => exact h
  | some room =>
    exact RegistryNamed_of_same a _ h rfl rfl (Room_Emit_Name room c data a)

theorem SendView_ok_cases {R : Type} (re : RegexpLib R) (ext : Collaborators)
    (c : ConnPtr) (path : GoString) (a a' : App)
    (h : SendView re ext c path a = .ok a') :
    a' = a ∨ ∃ data, a' = connSend c data a := by
  unfold SendView at h
  split at h
  · cases h
  · split at h
    · cases h
      exact Or.inl rfl
    · split at h
      · cases h
      · split at h
        · cases h
        · split at h
          · cases h
            exact Or.inl rfl
          · cases h
            exact Or.inr ⟨_, rfl⟩

theorem RegistryNamed_SendView {R : Type} (re : RegexpLib R) (ext : Collaborators)
    (c : ConnPtr) (path : GoString) (a a' : App)
    (hs : SendView re ext c path a = .ok a') (h : RegistryNamed a) : RegistryNamed a' := by
  rcases SendView_ok_cases re ext c path a a' hs with rfl | ⟨data, rfl⟩
  · exact h
  · exact RegistryNamed_connSend _ _ _ h

theorem RegistryNamed_HandleData {R : Type} (re : RegexpLib R) (ext : Collaborators)
    (c : ConnPtr) (data : Bytes) (msg : Option Message) (a a' : App)
    (hd : HandleData re ext c data msg a = .ok a') (h : RegistryNamed a) :
    RegistryNamed a' := by
  unfold HandleData at hd
  cases msg with
  | none => cases hd
  | some m =>
    simp only at hd
    split_ifs at hd with h1 h2 h3 h4
    · cases hd
      exact RegistryNamed_Join c m.Room a h
    · cases hd
      exact RegistryNamed_Leave c m.Room a h
    · exact RegistryNamed_SendView re ext c m.Payload a a' hd h
    · split at hd
      · cases hd
      · split at hd
        · cases hd
          exact RegistryNamed_connSend _ _ _ h
        · cases hd
          exact h
    · cases hd
      exact RegistryNamed_Emit c data m a h

/-! ## Lemmas on the connection registry -/

theorem Join_ConnManager (c : ConnPtr) (n : GoString) (a : App) :
    (Conn.Join c n a).ConnManager = a.ConnManager := by
  cases h : mapGet a.RoomManager n <;> simp [Conn.Join, h, Room.Join, NewRoom]

theorem Leave_ConnManager (c : ConnPtr) (n : GoString) (a : App) :
    (Conn.Leave c n a).ConnManager = a.ConnManager := by
  cases h : mapGet a.RoomManager n <;> simp [Conn.Leave, h, Room.Leave, leaveSend]

theorem Emit_ConnManager (c : ConnPtr) (data : Bytes) (msg : Message) (a : App) :
    (Conn.Emit c data msg a).ConnManager = a.ConnManager := by
  cases h : mapGet a.RoomManager msg.Room <;> simp [Conn.Emit, h, Room.Emit]

theorem SendView_ConnManager {R : Type} (re : RegexpLib R) (ext : Collaborators)
    (c : ConnPtr) (path : GoString) (a a' : App)
    (h : SendView re ext c path a = .ok a') : a'.ConnManager = a.ConnManager := by
  rcases SendView_ok_cases re ext c path a a' h with rfl | ⟨data, rfl⟩
  · rfl
  · rfl

theorem HandleData_ConnManager {R : Type} (re : RegexpLib R) (ext : Collaborators)
    (c : ConnPtr) (data : Bytes) (msg : Option Message) (a a' : App)
    (h : HandleData re ext c data msg a = .ok a') : a'.ConnManager = a.ConnManager := by
  unfold HandleData at h
  cases msg with
  | none => cases h
  | some m =>
    simp only at h
    split_ifs at h with h1 h2 h3 h4
    · cases h
      exact Join_ConnManager c m.Room a
    · cases h
      exact Leave_ConnManager c m.Room a
    · exact SendView_ConnManager re ext c m.Payload a a' h
    · split at h
      · cases h
      · split at h
        · cases h
          rfl
        · cases h
          rfl
    · cases h
      exact Emit_ConnManager c data m a

theorem handleFrames_ConnManager {R : Type} (re : RegexpLib R) (ext : Collaborators)
    (c : ConnPtr) (frames : List Bytes) (a : App) :
    (handleFrames re ext c frames a).1.ConnManager = a.ConnManager := by
  induction frames generalizing a with
  | nil => rfl
  | cons data rest ih =>
    unfold handleFrames
    cases h : HandleData re ext c data (BytesToMessage data) a with
    | error p => rfl
    | ok a1 =>
      simp only
      rw [ih a1]
      exact HandleData_ConnManager re ext c data _ a a1 h

theorem foldl_Emit_ConnManager (c : ConnPtr) (L : GoMap RoomPtr) (a : App) :
    (L.foldl (fun s e => Room.Emit e.2 c (MessageToBytes (leftMessage e.1 (s.conns c).Id)) s)
      a).ConnManager = a.ConnManager := by
  induction L generalizing a with
  | nil => rfl
  | cons e L ih =>
    rw [List.foldl_cons, ih]
    rfl

theorem foldl_leaveSend_ConnManager (c : ConnPtr) (L : GoMap RoomPtr) (a : App) :
    (L.foldl (fun s e => leaveSend e.2 c s) a).ConnManager = a.ConnManager := by
  induction L generalizing a with
  | nil => rfl
  | cons e L ih =>
    rw [List.foldl_cons, ih]
    rfl

theorem teardown_ConnManager (c : ConnPtr) (a : App) :
    (teardown c a).ConnManager = a.ConnManager := by
  simp [teardown, foldl_leaveSend_ConnManager]

theorem readLoop_ConnManager {R : Type} (re : RegexpLib R) (ext : Collaborators)
    (c : ConnPtr) (frames : List Bytes) (err : ReadError) (a : App) :
    (readLoop re ext c frames err a).1.ConnManager = a.ConnManager := by
  have hf := handleFrames_ConnManager re ext c frames a
  unfold readLoop
  rcases hfr : handleFrames re ext c frames a with ⟨s, _ | p⟩
  · rw [hfr] at hf
    cases err
    · simp only [emitLeft]
      rw [foldl_Emit_ConnManager]
      exact hf
    · exact hf
  · rw [hfr] at hf
    exact hf

/-! ## Lemmas on the room channels -/

theorem filter_room_of_nodup (S : GoMap RoomPtr) (name : GoString) (r : RoomPtr)
    (hmem : (name, r) ∈ S) (hnd : (S.map Prod.snd).Nodup) :
    S.filter (fun e => decide (e.2 = r)) = [(name, r)] := by
  induction S with
  | nil => simp at hmem
  | cons e S ih =>
    rw [List.map_cons, List.nodup_cons] at hnd
    rcases List.mem_cons.mp hmem with h | h
    · subst h
      have hnil : S.filter (fun e => decide (e.2 = r)) = [] := by
        rw [List.filter_eq_nil_iff]
        intro e' he' hdec
        have heq : e'.2 = r := by simpa using hdec
        have hm : e'.2 ∈ S.map Prod.snd := List.mem_map_of_mem Prod.snd he'
        rw [heq] at hm
        exact hnd.1 hm
      simp [List.filter_cons, hnil]
    · have hne : ¬ e.2 = r := by
        intro heq
        have hm : r ∈ S.map Prod.snd := List.mem_map_of_mem Prod.snd h
        rw [← heq] at hm
        exact hnd.1 hm
      simp [List.filter_cons, hne, ih h hnd.2]

theorem filter_room_of_not_mem (S : GoMap RoomPtr) (r : RoomPtr)
    (h : r ∉ S.map Prod.snd) : S.filter (fun e => decide (e.2 = r)) = [] := by
  rw [List.filter_eq_nil_iff]
  intro e he hdec
  have heq : e.2 = r := by simpa using hdec
  have hm : e.2 ∈ S.map Prod.snd := List.mem_map_of_mem Prod.snd he
  rw [heq] at hm
  exact h hm

theorem foldl_Emit_Send (c : ConnPtr) (L : GoMap RoomPtr) (a : App) :
    (L.foldl (fun s e => Room.Emit e.2 c (MessageToBytes (leftMessage e.1 (s.conns c).Id)) s)
      a).conns = a.conns ∧
    ∀ r, ((L.foldl
        (fun s e => Room.Emit e.2 c (MessageToBytes (leftMessage e.1 (s.conns c).Id)) s)
        a).rooms r).Send
      = (a.rooms r).Send ++ leftNotifications c (a.conns c).Id L r := by
  induction L generalizing a with
  | nil => simp [leftNotifications]
  | cons e L ih =>
    obtain ⟨hc, hs⟩ := ih (Room.Emit e.2 c (MessageToBytes (leftMessage e.1 (a.conns c).Id)) a)
    rw [List.foldl_cons]
    refine ⟨by rw [hc]; rfl, ?_⟩
    intro r
    rw [hs r]
    have hid : ((Room.Emit e.2 c (MessageToBytes (leftMessage e.1 (a.conns c).Id)) a).conns c).Id
        = (a.conns c).Id := rfl
    rw [hid]
    by_cases her : e.2 = r
    · subst her
      simp [Room.Emit, leftNotifications, List.filter_cons]
    · simp [Room.Emit, leftNotifications, List.filter_cons, her,
        Function.update_noteq (Ne.symm her)]

theorem foldl_leaveSend_Send (c : ConnPtr) (L : GoMap RoomPtr) (a : App) (r : RoomPtr) :
    ((L.foldl (fun s e => leaveSend e.2 c s) a).rooms r).Send = (a.rooms r).Send := by
  induction L generalizing a with
  | nil => rfl
  | cons e L ih =>
    rw [List.foldl_cons, ih]
    by_cases her : r = e.2
    · subst her
      simp [leaveSend]
    · simp [leaveSend, Function.update_noteq her]

theorem teardown_Send (c : ConnPtr) (a : App) (r : RoomPtr) :
    ((teardown c a).rooms r).Send = (a.rooms r).Send := by
  simp [teardown, foldl_leaveSend_Send]

theorem foldl_leaveSend_Leavechan (c : ConnPtr) (L : GoMap RoomPtr) (a : App) :
    (L.foldl (fun s e => leaveSend e.2 c s) a).conns = a.conns ∧
    ∀ room, ((L.foldl (fun s e => leaveSend e.2 c s) a).rooms room).Leavechan
      = (a.rooms room).Leavechan
        ++ (L.filter (fun e => decide (e.2 = room))).map (fun _ => c) := by
  induction L generalizing a with
  | nil => simp
  | cons e L ih =>
    obtain ⟨hc, hl⟩ := ih (leaveSend e.2 c a)
    rw [List.foldl_cons]
    refine ⟨by rw [hc]; rfl, ?_⟩
    intro room
    rw [hl room]
    by_cases her : e.2 = room
    · subst her
      simp [leaveSend, List.filter_cons]
    · simp [leaveSend, List.filter_cons, her, Function.update_noteq (Ne.symm her)]

theorem teardown_leaves_and_closes (c : ConnPtr) (a : App) :
    ((teardown c a).conns c).closed = true ∧
    ∀ room, ((teardown c a).rooms room).Leavechan
      = (a.rooms room).Leavechan
        ++ ((a.conns c).Rooms.filter (fun e => decide (e.2 = room))).map (fun _ => c) := by
  refine ⟨by simp [teardown], ?_⟩
  intro room
  simp only [teardown]
  exact (foldl_leaveSend_Leavechan c (a.conns c).Rooms a).2 room

/-! ## Lemmas on the room registry -/

theorem RegistryKept_of_eq (a a' : App) (h : a'.RoomManager = a.RoomManager) :
    RegistryKept a a' := by
  intro n r hget
  rw [h]
  exact hget

theorem RegistryKept_trans (a a1 a2 : App) (h1 : RegistryKept a a1)
    (h2 : RegistryKept a1 a2) : RegistryKept a a2 :=
  fun n r hget => h2 n r (h1 n r hget)

theorem RegistryKept_Join (c : ConnPtr) (n : GoString) (a : App) :
    RegistryKept a (Conn.Join c n a) := by
  cases hn : mapGet a.RoomManager n with
  | some r => exact RegistryKept_of_eq _ _ (Join_registered c n a r hn).1
  | none =>
    intro n' r' hget
    rw [(Join_unregistered c n a hn).1]
    have hne : n' ≠ n := by
      intro h
      rw [h, hn] at hget
      cases hget
    rw [mapGet_mapSet_other _ _ _ _ hne]
    exact hget

theorem RegistryKept_Leave (c : ConnPtr) (n : GoString) (a : App) :
    RegistryKept a (Conn.Leave c n a) := by
  cases hn : mapGet a.RoomManager n with
  | some r => exact RegistryKept_of_eq _ _ (Leave_registered c n a r hn).1
  | none =>
    rw [Leave_unregistered c n a hn]
    exact fun _ _ h => h

theorem RegistryKept_Emit (c : ConnPtr) (data : Bytes) (msg : Message) (a : App) :
    RegistryKept a (Conn.Emit c data msg a) := by
  apply RegistryKept_of_eq
  cases h : mapGet a.RoomManager msg.Room <;> simp [Conn.Emit, h, Room.Emit]

theorem RegistryKept_SendView {R : Type} (re : RegexpLib R) (ext : Collaborators)
    (c : ConnPtr) (path : GoString) (a a' : App)
    (h : SendView re ext c path a = .ok a') : RegistryKept a a' := by
  apply RegistryKept_of_eq
  rcases SendView_ok_cases re ext c path a a' h with rfl | ⟨data, rfl⟩
  · rfl
  · rfl

theorem RegistryKept_HandleData {R : Type} (re : RegexpLib R) (ext : Collaborators)
    (c : ConnPtr) (data : Bytes) (msg : Option Message) (a a' : App)
    (h : HandleData re ext c data msg a = .ok a') : RegistryKept a a' := by
  unfold HandleData at h
  cases msg with
  | none => cases h
  | some m =>
    simp only at h
    split_ifs at h with h1 h2 h3 h4
    · cases h
      exact RegistryKept_Join c m.Room a
    · cases h
      exact RegistryKept_Leave c m.Room a
    · exact RegistryKept_SendView re ext c m.Payload a a' h
    · split at h
      · cases h
      · split at h
        · cases h
          exact RegistryKept_of_eq _ _ rfl
        · cases h
          exact fun _ _ hg => hg
    · cases h
      exact RegistryKept_Emit c data m a

theorem handleFrames_RegistryKept {R : Type} (re : RegexpLib R) (ext : Collaborators)
    (c : ConnPtr) (frames : List Bytes) (a : App) :
    RegistryKept a (handleFrames re ext c frames a).1 := by
  induction frames generalizing a with
  | nil => exact fun _ _ h => h
  | cons data rest ih =>
    unfold handleFrames
    cases h : HandleData re ext c data (BytesToMessage data) a with
    | error p => exact fun _ _ hg => hg
    | ok a1 =>
      exact RegistryKept_trans a a1 _ (RegistryKept_HandleData re ext c data _ a a1 h) (ih a1)

theorem foldl_Emit_RoomManager (c : ConnPtr) (L : GoMap RoomPtr) (a : App) :
    (L.foldl (fun s e => Room.Emit e.2 c (MessageToBytes (leftMessage e.1 (s.conns c).Id)) s)
      a).RoomManager = a.RoomManager := by
  induction L generalizing a with
  | nil => rfl
  | cons e L ih =>
    rw [List.foldl_cons, ih]
    rfl

theorem foldl_leaveSend_RoomManager (c : ConnPtr) (L : GoMap RoomPtr) (a : App) :
    (L.foldl (fun s e => leaveSend e.2 c s) a).RoomManager = a.RoomManager := by
  induction L generalizing a with
  | nil => rfl
  | cons e L ih =>
    rw [List.foldl_cons, ih]
    rfl

theorem teardown_RoomManager (c : ConnPtr) (a : App) :
    (teardown c a).RoomManager = a.RoomManager := by
  simp [teardown, foldl_leaveSend_RoomManager]

theorem readLoop_RegistryKept {R : Type} (re : RegexpLib R) (ext : Collaborators)
    (c : ConnPtr) (frames : List Bytes) (err : ReadError) (a : App) :
    RegistryKept a (readLoop re ext c frames err a).1 := by
  have hf := handleFrames_RegistryKept re ext c frames a
  unfold readLoop
  rcases hfr : handleFrames re ext c frames a with ⟨s, _ | p⟩
  · rw [hfr] at hf
    cases err
    · exact RegistryKept_trans a s _ hf
        (RegistryKept_of_eq _ _ (foldl_Emit_RoomManager c _ s))
    · exact hf
  · rw [hfr] at hf
    exact hf

/-! ## Properties of the route resolver -/

/-- C1: when the path is itself a key of the route table, `FindRoute` returns
exactly the descriptor registered under that key, whatever the regexp engine
does with the patterns of the table. -/
theorem FindRoute_literal_wins {R : Type} (re : RegexpLib R)
    (Routes : GoMap (GoMap GoString)) (path : GoString) (d : GoMap GoString)
    (h : mapGet Routes path = some d) :
    FindRoute re Routes path = .ok d := by
  simp [FindRoute, h]

/-- C1, at the spec's scenario: resolving `/home` returns the literal
descriptor. -/
theorem FindRoute_literal_wins_witness :
    mapGet scenarioRoutes (ascii "/home") = some [(ascii "template", ascii "home")] ∧
    FindRoute scenarioRegexp scenarioRoutes (ascii "/home")
      = .ok [(ascii "template", ascii "home")] :=
  ⟨by decide, FindRoute_literal_wins scenarioRegexp scenarioRoutes (ascii "/home") _ (by decide)⟩

/-- C2, as the code has it: for a path that is not a literal key and is
matched by exactly one anchored pattern, when every field value of that
pattern is one the loop can resolve (`fieldOK`), `FindRoute` returns a
descriptor, and every field of the pattern whose value is the placeholder
`"$d"`, `d` a digit within the submatches, is present in it with the text of
capture group `d`. -/
theorem FindRoute_placeholder {R : Type} (re : RegexpLib R)
    (Routes : GoMap (GoMap GoString)) (path key : GoString) (fields : GoMap GoString)
    (reg : R) (k : GoString) (d : Nat) (s : GoString)
    (hlit : mapGet Routes path = none)
    (hkey : mapGet Routes key = some fields)
    (hanchor : HasPrefix key (ascii "^") = true)
    (hcomp : re.Compile key = some reg)
    (hmatch : re.FindStringSubmatch reg path ≠ [])
    (honly : ∀ key' ∈ Routes.map Prod.fst, key' ≠ key →
      HasPrefix key' (ascii "^") = true → ∀ reg', re.Compile key' = some reg' →
        re.FindStringSubmatch reg' path = [])
    (hwf : mapWF fields)
    (hok : ∀ kv ∈ fields, fieldOK (re.FindStringSubmatch reg path) kv.2 = true)
    (hfield : (k, placeholder d) ∈ fields) (hd : d ≤ 9)
    (hcap : (re.FindStringSubmatch reg path)[d]? = some s) :
    ∃ route, FindRoute re Routes path = .ok route ∧ mapGet route k = some s := by
  have hstep : ∀ route, ∃ r, resolveKey re Routes path route key = .ok r ∧
      mapGet r k = some s := by
    intro route
    rw [resolveKey_hit re Routes path route key reg fields hanchor hcomp hmatch hkey]
    exact foldlM_resolveField_placeholder _ fields hwf hok k d s hd hcap hfield route
  have hloop : ∀ (L : GoMap (GoMap GoString)),
      (∀ e ∈ L, e.1 ∈ Routes.map Prod.fst) → ∀ route, ∃ r,
        L.foldlM (fun route e => resolveKey re Routes path route e.1) route = .ok r ∧
        ((key ∈ L.map Prod.fst ∨ mapGet route k = some s) → mapGet r k = some s) := by
    intro L
    induction L with
    | nil =>
      intro _ route
      refine ⟨route, rfl, ?_⟩
      intro h
      rcases h with h | h
      · simp at h
      · exact h
    | cons e L ih =>
      intro hsub route
      have hsubL : ∀ e' ∈ L, e'.1 ∈ Routes.map Prod.fst :=
        fun e' he' => hsub e' (List.mem_cons_of_mem _ he')
      by_cases he : e.1 = key
      · obtain ⟨r1, h1, hk1⟩ := hstep route
        obtain ⟨r2, h2, hk2⟩ := ih hsubL r1
        refine ⟨r2, ?_, fun _ => hk2 (Or.inr hk1)⟩
        rw [List.foldlM_cons, he, h1]
        exact h2
      · have h1 : resolveKey re Routes path route e.1 = .ok route :=
          resolveKey_miss re Routes path route e.1
            (honly e.1 (hsub e (List.mem_cons_self _ _)) he)
        obtain ⟨r2, h2, hk2⟩ := ih hsubL route
        refine ⟨r2, ?_, ?_⟩
        · rw [List.foldlM_cons, h1]
          exact h2
        · intro h
          apply hk2
          rcases h with h | h
          · left
            simp only [List.map_cons, List.mem_cons] at h
            rcases h with h | h
            · exact absurd h.symm he
            · exact h
          · exact Or.inr h
  obtain ⟨r, hr, hk⟩ := hloop Routes (fun e he => List.mem_map_of_mem _ he) []
  refine ⟨r, ?_, hk (Or.inl (mem_keys_of_mapGet Routes key fields hkey))⟩
  simp only [FindRoute, hlit]
  exact hr

/-- C2, at the spec's scenario: the pattern `^/user/(\d+)$` mapped to
`{id: "$1"}` resolves `/user/42` to a descriptor with `id == "42"`. -/
theorem FindRoute_placeholder_witness :
    FindRoute scenarioRegexp scenarioRoutes (ascii "/user/42")
        = .ok [(ascii "id", ascii "42")] ∧
    ∃ route, FindRoute scenarioRegexp scenarioRoutes (ascii "/user/42") = .ok route ∧
      mapGet route (ascii "id") = some (ascii "42") :=
  ⟨by decide,
   FindRoute_placeholder scenarioRegexp scenarioRoutes (ascii "/user/42")
    (ascii "^/user/(\\d+)$") [(ascii "id", ascii "$1")] (ascii "^/user/(\\d+)$")
    (ascii "id") 1 (ascii "42")
    (by decide) (by decide) (by decide) rfl (by decide)
    (by
      intro key' hmem hne hpre reg' _
      have hcases : key' = ascii "/home" ∨ key' = ascii "^/user/(\\d+)$" := by
        simpa [scenarioRoutes] using hmem
      rcases hcases with h | h
      · subst h
        exact absurd hpre (by decide)
      · exact absurd h hne)
    (by decide) (by decide) (by decide) (by decide) (by decide)⟩

/-- C2, where the claim as written fails: with the lone `$` next to
`{id: "$1"}` the path `/user/42` is not a literal key, the one pattern matches
it with one capture group, and `FindRoute` panics on the index `val[1]`, so no
descriptor carries `id`. -/
theorem lone_dollar_field_panics :
    mapGet loneDollarRoutes (ascii "/user/42") = none ∧
    scenarioRegexp.FindStringSubmatch (ascii "^/user/(\\d+)$") (ascii "/user/42")
      = [ascii "/user/42", ascii "42"] ∧
    (ascii "id", placeholder 1) ∈ [(ascii "id", ascii "$1"), (ascii "x", ascii "$")] ∧
    FindRoute scenarioRegexp loneDollarRoutes (ascii "/user/42")
      = .error Panic.indexOutOfRange := by
  decide

/-! ## Properties of the message codec -/

/-- C3: for every well-formed message, whose five length fields equal the
byte lengths of their fields and fit in 32 bits, decoding the encoding gives
the message back. -/
theorem BytesToMessage_MessageToBytes (m : Message) (h : m.WellFormed) :
    BytesToMessage (MessageToBytes m) = some m := by
  obtain ⟨⟨hr, hr'⟩, ⟨he, he'⟩, ⟨hd, hd'⟩, ⟨hs, hs'⟩, ⟨hp, hp'⟩⟩ := h
  have hlast : getField (putUint32 m.Payload.length ++ m.Payload)
      = some (m.Payload.length, m.Payload, []) := by
    have := getField_putUint32 m.Payload [] hp'
    simpa using this
  unfold BytesToMessage MessageToBytes
  rw [hr, he, hd, hs, hp]
  rw [getField_putUint32 m.Room _ hr']
  simp only
  rw [getField_putUint32 m.Event _ he']
  simp only
  rw [getField_putUint32 m.Dst _ hd']
  simp only
  rw [getField_putUint32 m.Src _ hs']
  simp only
  rw [hlast]
  simp only [if_true]
  rw [← hr, ← he, ← hd, ← hs, ← hp]

/-- C3, at the synthetic notification of room `a` for connection `c1`. -/
theorem BytesToMessage_MessageToBytes_witness :
    (leftMessage (ascii "a") (ascii "c1")).WellFormed ∧
    BytesToMessage (MessageToBytes (leftMessage (ascii "a") (ascii "c1")))
      = some (leftMessage (ascii "a") (ascii "c1")) :=
  have hwf : (leftMessage (ascii "a") (ascii "c1")).WellFormed := by
    simp [Message.WellFormed, leftMessage, ascii]
  ⟨hwf, BytesToMessage_MessageToBytes _ hwf⟩

/-! ## Properties of the connection actor -/

/-- C4: `Join` is idempotent. After `c.Join(n)`, a second `c.Join(n)` leaves
the joined-room set of `c` and the room registry exactly as they are; it
allocates no room, and renames none. -/
theorem Join_idempotent (c : ConnPtr) (n : GoString) (a : App) :
    ((Conn.Join c n (Conn.Join c n a)).conns c).Rooms = ((Conn.Join c n a).conns c).Rooms ∧
    (Conn.Join c n (Conn.Join c n a)).RoomManager = (Conn.Join c n a).RoomManager ∧
    (Conn.Join c n (Conn.Join c n a)).nextRoom = (Conn.Join c n a).nextRoom ∧
    (∀ p, ((Conn.Join c n (Conn.Join c n a)).rooms p).Name
      = ((Conn.Join c n a).rooms p).Name) := by
  obtain ⟨r, hreg, hrooms⟩ : ∃ r, mapGet (Conn.Join c n a).RoomManager n = some r ∧
      ((Conn.Join c n a).conns c).Rooms = mapSet (a.conns c).Rooms n r := by
    cases hn : mapGet a.RoomManager n with
    | some r =>
      obtain ⟨hRM, -, hR, -⟩ := Join_registered c n a r hn
      exact ⟨r, by rw [hRM]; exact hn, hR⟩
    | none =>
      obtain ⟨hRM, -, hR, -⟩ := Join_unregistered c n a hn
      exact ⟨a.nextRoom, by rw [hRM]; exact mapGet_mapSet_self _ _ _, hR⟩
  obtain ⟨hRM2, hnext2, hR2, hname2⟩ := Join_registered c n (Conn.Join c n a) r hreg
  refine ⟨?_, hRM2, hnext2, hname2⟩
  rw [hR2, hrooms, mapSet_idem]

/-- C5: leaving a room not joined is a no-op. In a state whose registry names
its rooms (`RegistryNamed`), for a name `n` that is not in `c.Rooms`,
`c.Leave(n)`, a total function, leaves `c.Rooms` and the registry unchanged,
both when a room named `n` is registered and when none is. -/
theorem Leave_not_joined (c : ConnPtr) (n : GoString) (a : App)
    (hreg : RegistryNamed a) (hnot : mapGet (a.conns c).Rooms n = none) :
    ((Conn.Leave c n a).conns c).Rooms = (a.conns c).Rooms ∧
    (Conn.Leave c n a).RoomManager = a.RoomManager := by
  cases hn : mapGet a.RoomManager n with
  | some r =>
    obtain ⟨hRM, -, hR, -⟩ := Leave_registered c n a r hn
    refine ⟨?_, hRM⟩
    rw [hR, (hreg n r hn).2]
    exact mapDelete_of_not_mem _ _ hnot
  | none =>
    rw [Leave_unregistered c n a hn]
    exact ⟨rfl, rfl⟩

/-- C5, at the scenario: `c1` has joined `root` only; it leaves `lobby`, which
is registered, and `attic`, which is not. -/
theorem Leave_not_joined_witness :
    RegistryNamed scenarioApp ∧
    mapGet (scenarioApp.conns 0).Rooms (ascii "lobby") = none ∧
    mapGet scenarioApp.RoomManager (ascii "lobby") = some 1 ∧
    mapGet scenarioApp.RoomManager (ascii "attic") = none ∧
    (((Conn.Leave 0 (ascii "lobby") scenarioApp).conns 0).Rooms = (scenarioApp.conns 0).Rooms ∧
      (Conn.Leave 0 (ascii "lobby") scenarioApp).RoomManager = scenarioApp.RoomManager) ∧
    (((Conn.Leave 0 (ascii "attic") scenarioApp).conns 0).Rooms = (scenarioApp.conns 0).Rooms ∧
      (Conn.Leave 0 (ascii "attic") scenarioApp).RoomManager = scenarioApp.RoomManager) :=
  ⟨RegistryNamed_scenarioApp, by decide, by decide, by decide,
   Leave_not_joined 0 (ascii "lobby") scenarioApp RegistryNamed_scenarioApp (by decide),
   Leave_not_joined 0 (ascii "attic") scenarioApp RegistryNamed_scenarioApp (by decide)⟩

/-- C6: for a frame whose event is none of `join`, `leave`, `request` and whose
`dst` is not empty, when `dst` is the id of a member of the room the
connection holds under the frame's room name, `HandleData` returns, appends
the raw frame once to that member's outbound queue, leaves every other
outbound queue as it is, and submits nothing to any room. -/
theorem HandleData_forward_delivers {R : Type} (re : RegexpLib R) (ext : Collaborators)
    (c : ConnPtr) (data : Bytes) (msg : Message) (a : App) (room : RoomPtr) (dst : ConnPtr)
    (hjoin : msg.Event ≠ ascii "join") (hleave : msg.Event ≠ ascii "leave")
    (hrequest : msg.Event ≠ ascii "request") (hdst : msg.Dst ≠ [])
    (hroom : mapGet (a.conns c).Rooms msg.Room = some room)
    (hmember : mapGet (a.rooms room).Members msg.Dst = some dst) :
    ∃ a', HandleData re ext c data (some msg) a = .ok a' ∧
      (a'.conns dst).Send = (a.conns dst).Send ++ [data] ∧
      (∀ d, d ≠ dst → (a'.conns d).Send = (a.conns d).Send) ∧
      a'.rooms = a.rooms := by
  refine ⟨connSend dst data a, ?_, ?_, ?_, rfl⟩
  · simp [HandleData, hjoin, hleave, hrequest, hdst, hroom, hmember]
  · simp [connSend]
  · intro d hd
    simp [connSend, Function.update_noteq hd]

/-- C6, at the scenario: `c1` and `c2` are members of `lobby`, and `c1`
forwards a `chat` frame to `c2`. -/
theorem HandleData_forward_delivers_witness :
    mapGet (lobbyApp.conns 0).Rooms chatMessage.Room = some 1 ∧
    mapGet (lobbyApp.rooms 1).Members chatMessage.Dst = some 1 ∧
    ∃ a', HandleData scenarioRegexp scenarioCollaborators 0 (MessageToBytes chatMessage)
        (some chatMessage) lobbyApp = .ok a' ∧
      (a'.conns 1).Send = (lobbyApp.conns 1).Send ++ [MessageToBytes chatMessage] ∧
      (∀ d, d ≠ 1 → (a'.conns d).Send = (lobbyApp.conns d).Send) ∧
      a'.rooms = lobbyApp.rooms :=
  ⟨by decide, by decide,
   HandleData_forward_delivers scenarioRegexp scenarioCollaborators 0
    (MessageToBytes chatMessage) chatMessage lobbyApp 1 1
    (by decide) (by decide) (by decide) (by decide) (by decide) (by decide)⟩

/-- C7, at the failing input: `c1` has joined `root` only and reads a `chat`
frame that names the room `lobby` and the destination `c2`. The frame decodes,
its event is none of `join`, `leave`, `request`, its `dst` is not empty, the
connection holds no room under `lobby`, and `HandleData` does not drop the
forward: it panics on the nil room. -/
theorem HandleData_forward_unjoined_panics :
    BytesToMessage (MessageToBytes chatMessage) = some chatMessage ∧
    mapGet (scenarioApp.conns 0).Rooms chatMessage.Room = none ∧
    HandleData scenarioRegexp scenarioCollaborators 0 (MessageToBytes chatMessage)
        (BytesToMessage (MessageToBytes chatMessage)) scenarioApp
      = .error Panic.nilDereference ∧
    (ReadPump scenarioRegexp scenarioCollaborators 0 [MessageToBytes chatMessage]
        ReadError.EOF scenarioApp).2 = some Panic.nilDereference := by
  have hdec : BytesToMessage (MessageToBytes chatMessage) = some chatMessage := by decide
  have hroom : mapGet (scenarioApp.conns 0).Rooms chatMessage.Room = none := by decide
  have hev1 : chatMessage.Event ≠ ascii "join" := by decide
  have hev2 : chatMessage.Event ≠ ascii "leave" := by decide
  have hev3 : chatMessage.Event ≠ ascii "request" := by decide
  have hdst : chatMessage.Dst ≠ [] := by decide
  have hpanic : HandleData scenarioRegexp scenarioCollaborators 0 (MessageToBytes chatMessage)
      (BytesToMessage (MessageToBytes chatMessage)) scenarioApp
        = .error Panic.nilDereference := by
    rw [hdec]
    simp [HandleData, hev1, hev2, hev3, hdst, hroom]
  refine ⟨hdec, hroom, hpanic, ?_⟩
  simp [ReadPump, readLoop, handleFrames, hpanic]

/-- C8, as the code has it: for a connection `c` that the connection registry
holds under its id, as `NewConnection` leaves it, `ReadPump` leaves the
registry as it is, however its loop is left (clean close, another read error,
or a panic of a handler): the entry of the id is still there afterwards. The
teardown closes the transport and sends `c` on the leave channel of every
room that `c.Rooms` holds when the loop is left, once per entry; and `Join`,
`Leave`, `Emit` and `HandleData` leave the registry as it is. -/
theorem ReadPump_keeps_ConnManager {R : Type} (re : RegexpLib R) (ext : Collaborators)
    (c : ConnPtr) (id : GoString) (a : App) (frames : List Bytes) (err : ReadError)
    (hreg : mapGet a.ConnManager id = some c) :
    (ReadPump re ext c frames err a).1.ConnManager = a.ConnManager ∧
    mapGet (ReadPump re ext c frames err a).1.ConnManager id = some c ∧
    ((ReadPump re ext c frames err a).1.conns c).closed = true ∧
    (∀ room, ((ReadPump re ext c frames err a).1.rooms room).Leavechan
      = ((readLoop re ext c frames err a).1.rooms room).Leavechan
        ++ (((readLoop re ext c frames err a).1.conns c).Rooms.filter
              (fun e => decide (e.2 = room))).map (fun _ => c)) ∧
    (∀ n, (Conn.Join c n a).ConnManager = a.ConnManager) ∧
    (∀ n, (Conn.Leave c n a).ConnManager = a.ConnManager) ∧
    (∀ data msg, (Conn.Emit c data msg a).ConnManager = a.ConnManager) ∧
    (∀ data msg a', HandleData re ext c data msg a = .ok a' →
      a'.ConnManager = a.ConnManager) ∧
    (∀ upgraded id' privilege c' a1,
      NewConnection upgraded id' privilege a = some (c', a1) →
        mapGet a1.ConnManager id' = some c' ∧ (a1.conns c').Id = id') := by
  have hkeep : (ReadPump re ext c frames err a).1.ConnManager = a.ConnManager := by
    simp only [ReadPump]
    rw [teardown_ConnManager, readLoop_ConnManager]
  obtain ⟨hclosed, hleave⟩ := teardown_leaves_and_closes c (readLoop re ext c frames err a).1
  refine ⟨hkeep, ?_, hclosed, hleave, fun n => Join_ConnManager c n a,
    fun n => Leave_ConnManager c n a, fun data msg => Emit_ConnManager c data msg a,
    fun data msg a' h => HandleData_ConnManager re ext c data msg a a' h, ?_⟩
  · rw [hkeep]
    exact hreg
  · intro upgraded id' privilege c' a1 hnew
    unfold NewConnection at hnew
    split_ifs at hnew
    simp only [Option.some.injEq, Prod.mk.injEq] at hnew
    obtain ⟨hc, ha⟩ := hnew
    subst ha
    subst hc
    exact ⟨mapGet_mapSet_self _ _ _, by simp⟩

/-- C8, at the scenario: `c2`, created by `NewConnection` and a member of
`root` and `lobby`, reads a frame that joins `attic` and then a clean close.
The registry is as before, the transport is closed, and each of the three
rooms has `c2` once on its leave channel. -/
theorem ReadPump_keeps_ConnManager_witness :
    mapGet scenarioApp.ConnManager (ascii "c2") = some 1 ∧
    BytesToMessage (MessageToBytes (joinMessage (ascii "attic")))
      = some (joinMessage (ascii "attic")) ∧
    (ReadPump scenarioRegexp scenarioCollaborators 1
      [MessageToBytes (joinMessage (ascii "attic"))] ReadError.EOF scenarioApp).2 = none ∧
    (ReadPump scenarioRegexp scenarioCollaborators 1
      [MessageToBytes (joinMessage (ascii "attic"))] ReadError.EOF scenarioApp).1.ConnManager
      = [(ascii "c1", 0), (ascii "c2", 1)] ∧
    ((readLoop scenarioRegexp scenarioCollaborators 1
      [MessageToBytes (joinMessage (ascii "attic"))] ReadError.EOF scenarioApp).1.conns 1).Rooms
      = [(ascii "root", 0), (ascii "lobby", 1), (ascii "attic", 2)] ∧
    ((ReadPump scenarioRegexp scenarioCollaborators 1
      [MessageToBytes (joinMessage (ascii "attic"))] ReadError.EOF scenarioApp).1.rooms
        0).Leavechan = [1] ∧
    ((ReadPump scenarioRegexp scenarioCollaborators 1
      [MessageToBytes (joinMessage (ascii "attic"))] ReadError.EOF scenarioApp).1.rooms
        1).Leavechan = [1] ∧
    ((ReadPump scenarioRegexp scenarioCollaborators 1
      [MessageToBytes (joinMessage (ascii "attic"))] ReadError.EOF scenarioApp).1.rooms
        2).Leavechan = [1] ∧
    ((ReadPump scenarioRegexp scenarioCollaborators 1
        [MessageToBytes (joinMessage (ascii "attic"))] ReadError.EOF
        scenarioApp).1.ConnManager = scenarioApp.ConnManager ∧
      mapGet (ReadPump scenarioRegexp scenarioCollaborators 1
        [MessageToBytes (joinMessage (ascii "attic"))] ReadError.EOF
        scenarioApp).1.ConnManager (ascii "c2") = some 1 ∧
      ((ReadPump scenarioRegexp scenarioCollaborators 1
        [MessageToBytes (joinMessage (ascii "attic"))] ReadError.EOF
        scenarioApp).1.conns 1).closed = true) :=
  have h := ReadPump_keeps_ConnManager scenarioRegexp scenarioCollaborators 1 (ascii "c2")
    scenarioApp [MessageToBytes (joinMessage (ascii "attic"))] ReadError.EOF (by decide)
  ⟨by decide, by decide, by decide, by decide, by decide, by decide, by decide, by decide,
   h.1, h.2.1, h.2.2.1⟩

/-- C8, where the claim as written fails. `c1` is created by `NewConnection`
in a fresh application, its inbound loop reads a clean close and terminates
without a panic, and the connection registry still maps `c1` to the
connection. Likewise `c2`, a member of `root` and `lobby`, reads a frame that
joins `attic` and then a clean close, and the registry still maps `c2` to the
connection. -/
theorem ReadPump_leaves_ConnManager_entry :
    ((NewConnection true (ascii "c1") (ascii "user") NewApp).map Prod.fst = some 0 ∧
      (ReadPump scenarioRegexp scenarioCollaborators 0 [] ReadError.EOF newcomerApp).2 = none ∧
      mapGet (ReadPump scenarioRegexp scenarioCollaborators 0 [] ReadError.EOF
        newcomerApp).1.ConnManager (ascii "c1") = some 0) ∧
    ((ReadPump scenarioRegexp scenarioCollaborators 1
        [MessageToBytes (joinMessage (ascii "attic"))] ReadError.EOF scenarioApp).2 = none ∧
      mapGet (ReadPump scenarioRegexp scenarioCollaborators 1
        [MessageToBytes (joinMessage (ascii "attic"))] ReadError.EOF
        scenarioApp).1.ConnManager (ascii "c2") = some 1) := by
  decide

/-- C9: let `s` be the state in which the inbound loop of `c` reads its
terminal error, with joined-room set `S = c.Rooms`. On a clean close the
notifications `ReadPump` submits to a room are exactly `leftNotifications`:
one per entry of `S` that points to the room, so, the rooms of `S` being
pairwise distinct, exactly one for each room of `S`, built from the message
with room the entry's name, event `left`, dst empty, src and payload the
connection id, and none for a room outside `S`. On any other read error no
room receives a notification. -/
theorem ReadPump_left_notifications {R : Type} (re : RegexpLib R) (ext : Collaborators)
    (c : ConnPtr) (frames : List Bytes) (a s : App)
    (h : handleFrames re ext c frames a = (s, none)) :
    (∀ r, ((ReadPump re ext c frames ReadError.EOF a).1.rooms r).Send
      = (s.rooms r).Send ++ leftNotifications c (s.conns c).Id (s.conns c).Rooms r) ∧
    (((s.conns c).Rooms.map Prod.snd).Nodup → ∀ name r, (name, r) ∈ (s.conns c).Rooms →
      leftNotifications c (s.conns c).Id (s.conns c).Rooms r
        = [{ Sender := c, Data := MessageToBytes
              { RoomLength := name.length, Room := name,
                EventLength := 4, Event := ascii "left",
                DstLength := 0, Dst := [],
                SrcLength := (s.conns c).Id.length, Src := (s.conns c).Id,
                PayloadLength := (s.conns c).Id.length, Payload := (s.conns c).Id } }]) ∧
    (∀ r, r ∉ (s.conns c).Rooms.map Prod.snd →
      leftNotifications c (s.conns c).Id (s.conns c).Rooms r = []) ∧
    (∀ r, ((ReadPump re ext c frames ReadError.other a).1.rooms r).Send = (s.rooms r).Send) := by
  refine ⟨?_, ?_, ?_, ?_⟩
  · intro r
    simp only [ReadPump, readLoop, h]
    rw [teardown_Send]
    exact (foldl_Emit_Send c (s.conns c).Rooms s).2 r
  · intro hnd name r hmem
    simp only [leftNotifications]
    rw [filter_room_of_nodup _ name r hmem hnd]
    rfl
  · intro r hr
    simp only [leftNotifications]
    rw [filter_room_of_not_mem _ r hr]
    rfl
  · intro r
    simp only [ReadPump, readLoop, h]
    rw [teardown_Send]

/-- C9, at the scenario: `c2` is a member of `root` (address 0) and `lobby`
(address 1) when its inbound loop reads the terminal error at once. -/
theorem ReadPump_left_notifications_witness :
    handleFrames scenarioRegexp scenarioCollaborators 1 [] scenarioApp = (scenarioApp, none) ∧
    (scenarioApp.conns 1).Rooms = [(ascii "root", 0), (ascii "lobby", 1)] ∧
    ((ReadPump scenarioRegexp scenarioCollaborators 1 [] ReadError.EOF scenarioApp).1.rooms 0).Send
      = [{ Sender := 1, Data := MessageToBytes (leftMessage (ascii "root") (ascii "c2")) }] ∧
    ((ReadPump scenarioRegexp scenarioCollaborators 1 [] ReadError.EOF scenarioApp).1.rooms 1).Send
      = [{ Sender := 1, Data := MessageToBytes (leftMessage (ascii "lobby") (ascii "c2")) }] ∧
    ((ReadPump scenarioRegexp scenarioCollaborators 1 [] ReadError.EOF scenarioApp).1.rooms 2).Send
      = [] ∧
    ((ReadPump scenarioRegexp scenarioCollaborators 1 [] ReadError.other scenarioApp).1.rooms 0).Send
      = [] ∧
    ((∀ r, ((ReadPump scenarioRegexp scenarioCollaborators 1 [] ReadError.EOF
          scenarioApp).1.rooms r).Send
        = (scenarioApp.rooms r).Send
          ++ leftNotifications 1 (scenarioApp.conns 1).Id (scenarioApp.conns 1).Rooms r) ∧
      (((scenarioApp.conns 1).Rooms.map Prod.snd).Nodup → ∀ name r,
        (name, r) ∈ (scenarioApp.conns 1).Rooms →
        leftNotifications 1 (scenarioApp.conns 1).Id (scenarioApp.conns 1).Rooms r
          = [{ Sender := 1, Data := MessageToBytes
                { RoomLength := name.length, Room := name,
                  EventLength := 4, Event := ascii "left",
                  DstLength := 0, Dst := [],
                  SrcLength := (scenarioApp.conns 1).Id.length, Src := (scenarioApp.conns 1).Id,
                  PayloadLength := (scenarioApp.conns 1).Id.length,
                  Payload := (scenarioApp.conns 1).Id } }]) ∧
      (∀ r, r ∉ (scenarioApp.conns 1).Rooms.map Prod.snd →
        leftNotifications 1 (scenarioApp.conns 1).Id (scenarioApp.conns 1).Rooms r = []) ∧
      (∀ r, ((ReadPump scenarioRegexp scenarioCollaborators 1 [] ReadError.other
          scenarioApp).1.rooms r).Send = (scenarioApp.rooms r).Send)) :=
  ⟨rfl, by decide, by decide, by decide, by decide, by decide,
   ReadPump_left_notifications scenarioRegexp scenarioCollaborators 1 [] scenarioApp
    scenarioApp rfl⟩

/-- C10, as the code has it: for a `request` frame with payload path `p` on
which `FindRoute` returns the descriptor `route`. When `route` has a template,
a template set is loaded and a database is configured unless `route` has no
table, the collection is fetched without a panic, and with the payload that
`json.Marshal` returns `HandleData`, through `SendView`, appends exactly one
frame to the calling connection's own outbound queue and to no other, the
encoding of a message with event `response` and dst the calling connection's
id. When `route` has no template, the state, and with it every queue, is left
as it is. -/
theorem HandleData_request_response {R : Type} (re : RegexpLib R) (ext : Collaborators)
    (c : ConnPtr) (data : Bytes) (msg : Message) (a : App) (route : GoMap GoString)
    (hev : msg.Event = ascii "request")
    (hroute : FindRoute re a.Routes msg.Payload = .ok route) :
    (∀ tmpl t, mapGet route (ascii "template") = some tmpl → a.Templates = some t →
      (mapGet route (ascii "table") = none ∨ ∃ d, a.DB = some d) →
      ∃ collection, viewCollection a.DB route = .ok collection ∧
        ∀ payload, ext.Marshal (viewData ext t route collection) = some payload →
          ∃ a', HandleData re ext c data (some msg) a = .ok a' ∧
            SendView re ext c msg.Payload a = .ok a' ∧
            (a'.conns c).Send
              = (a.conns c).Send
                ++ [MessageToBytes (responseMessage (a.conns c).Id payload)] ∧
            (∀ d, d ≠ c → (a'.conns d).Send = (a.conns d).Send) ∧
            a'.rooms = a.rooms ∧
            (responseMessage (a.conns c).Id payload).Event = ascii "response" ∧
            (responseMessage (a.conns c).Id payload).Dst = (a.conns c).Id) ∧
    (mapGet route (ascii "template") = none →
      HandleData re ext c data (some msg) a = .ok a ∧
      SendView re ext c msg.Payload a = .ok a) := by
  have hj : ¬ ascii "request" = ascii "join" := by decide
  have hl : ¬ ascii "request" = ascii "leave" := by decide
  have hHD : HandleData re ext c data (some msg) a = SendView re ext c msg.Payload a := by
    simp only [HandleData, hev, if_neg hj, if_neg hl, if_true]
  refine ⟨?_, ?_⟩
  · intro tmpl t ht htm hdb
    obtain ⟨collection, hcol⟩ : ∃ collection, viewCollection a.DB route = .ok collection := by
      unfold viewCollection
      rcases hdb with htab | ⟨d, hd⟩
      · rw [htab]
        exact ⟨_, rfl⟩
      · rw [hd]
        cases mapGet route (ascii "table") with
        | none => exact ⟨_, rfl⟩
        | some _ =>
          cases mapGet route (ascii "key") with
          | none => exact ⟨_, rfl⟩
          | some _ =>
            simp only
            cases d.GetObj (mapIndex route (ascii "table")) (mapIndex route (ascii "key")) with
            | none => exact ⟨_, rfl⟩
            | some obj => exact ⟨_, rfl⟩
    refine ⟨collection, hcol, ?_⟩
    intro payload hm
    have hSV : SendView re ext c msg.Payload a
        = .ok (connSend c (MessageToBytes (responseMessage (a.conns c).Id payload)) a) := by
      simp [SendView, hroute, ht, hcol, htm, hm]
    refine ⟨_, hHD.trans hSV, hSV, ?_, ?_, rfl, rfl, rfl⟩
    · simp [connSend]
    · intro d hd
      simp [connSend, Function.update_noteq hd]
  · intro ht
    have hSV : SendView re ext c msg.Payload a = .ok a := by
      simp [SendView, hroute, ht]
    exact ⟨hHD.trans hSV, hSV⟩

/-- C10, at a scenario: `c1` requests `/items`, whose descriptor has the
template `items` and the table `items`, in an application with a template set
and a database; the table lists one object. -/
theorem HandleData_request_response_witness :
    (requestMessage (ascii "/items")).Event = ascii "request" ∧
    FindRoute scenarioRegexp storedApp.Routes (requestMessage (ascii "/items")).Payload
      = .ok [(ascii "template", ascii "items"), (ascii "table", ascii "items")] ∧
    viewCollection storedApp.DB
        [(ascii "template", ascii "items"), (ascii "table", ascii "items")]
      = .ok [ascii "items"] ∧
    ∃ a', HandleData scenarioRegexp scenarioCollaborators 0
        (MessageToBytes (requestMessage (ascii "/items")))
        (some (requestMessage (ascii "/items"))) storedApp = .ok a' ∧
      (a'.conns 0).Send = (storedApp.conns 0).Send
        ++ [MessageToBytes (responseMessage (ascii "c1") (ascii "items"))] ∧
      (∀ d, d ≠ 0 → (a'.conns d).Send = (storedApp.conns d).Send) :=
  have hev : (requestMessage (ascii "/items")).Event = ascii "request" := by decide
  have hroute : FindRoute scenarioRegexp storedApp.Routes
      (requestMessage (ascii "/items")).Payload
        = .ok [(ascii "template", ascii "items"), (ascii "table", ascii "items")] := by
    decide
  have hcol : viewCollection storedApp.DB
      [(ascii "template", ascii "items"), (ascii "table", ascii "items")]
        = .ok [ascii "items"] := by
    decide
  ⟨hev, hroute, hcol,
   match (HandleData_request_response scenarioRegexp scenarioCollaborators 0
      (MessageToBytes (requestMessage (ascii "/items"))) (requestMessage (ascii "/items"))
      storedApp [(ascii "template", ascii "items"), (ascii "table", ascii "items")]
      hev hroute).1
      (ascii "items") scenarioTemplates (by decide) rfl (Or.inr ⟨scenarioDatabase, rfl⟩) with
   | ⟨collection, hc, hsend⟩ =>
     have hcc : collection = [ascii "items"] := by
       rw [hcol] at hc
       exact (Except.ok.inj hc).symm
     match hsend (ascii "items") (by rw [hcc]; decide) with
     | ⟨a', h1, _, h3, h4, _⟩ => ⟨a', h1, h3, h4⟩⟩

/-- C10, where the claim as written fails. With no database configured, `c1`
requests `/items`: `FindRoute` returns a descriptor with a template, the
descriptor has a table, and the call of `GetAllObjs` on the nil database
panics before the send, so no frame is enqueued. With no template set loaded,
`c1` requests `/home`, whose descriptor has a template, and the call of
`ExecuteTemplate` panics before the send as well. -/
theorem SendView_panics_unconfigured :
    (FindRoute scenarioRegexp storelessApp.Routes (ascii "/items")
        = .ok [(ascii "template", ascii "items"), (ascii "table", ascii "items")] ∧
      SendView scenarioRegexp scenarioCollaborators 0 (ascii "/items") storelessApp
        = .error Panic.nilDereference ∧
      (ReadPump scenarioRegexp scenarioCollaborators 0
        [MessageToBytes (requestMessage (ascii "/items"))] ReadError.EOF storelessApp).2
        = some Panic.nilDereference ∧
      ((ReadPump scenarioRegexp scenarioCollaborators 0
        [MessageToBytes (requestMessage (ascii "/items"))] ReadError.EOF storelessApp).1.conns
          0).Send = []) ∧
    (FindRoute scenarioRegexp templatelessApp.Routes (ascii "/home")
        = .ok [(ascii "template", ascii "home")] ∧
      SendView scenarioRegexp scenarioCollaborators 0 (ascii "/home") templatelessApp
        = .error Panic.nilDereference ∧
      (ReadPump scenarioRegexp scenarioCollaborators 0
        [MessageToBytes (requestMessage (ascii "/home"))] ReadError.EOF templatelessApp).2
        = some Panic.nilDereference ∧
      ((ReadPump scenarioRegexp scenarioCollaborators 0
        [MessageToBytes (requestMessage (ascii "/home"))] ReadError.EOF templatelessApp).1.conns
          0).Send = []) := by
  have hr1 : FindRoute scenarioRegexp storelessApp.Routes (ascii "/items")
      = .ok [(ascii "template", ascii "items"), (ascii "table", ascii "items")] := by decide
  have hr2 : FindRoute scenarioRegexp templatelessApp.Routes (ascii "/home")
      = .ok [(ascii "template", ascii "home")] := by decide
  have hc1 : viewCollection storelessApp.DB
      [(ascii "template", ascii "items"), (ascii "table", ascii "items")]
        = .error Panic.nilDereference := by decide
  have hc2 : viewCollection templatelessApp.DB [(ascii "template", ascii "home")]
      = .ok [] := by decide
  have htm : templatelessApp.Templates = none := rfl
  have ht1 : mapGet [(ascii "template", ascii "items"), (ascii "table", ascii "items")]
      (ascii "template") = some (ascii "items") := by decide
  have ht2 : mapGet [(ascii "template", ascii "home")] (ascii "template")
      = some (ascii "home") := by decide
  refine ⟨⟨hr1, ?_, by decide, by decide⟩, ⟨hr2, ?_, by decide, by decide⟩⟩
  · simp only [SendView, hr1, ht1, hc1]
  · simp only [SendView, hr2, ht2, hc2, htm]

/-! ## Further properties of the route resolver -/

/-- C12, as the code has it: for a path that is not a literal key and is
matched by exactly one anchored pattern, when every field value of that
pattern is one the loop can resolve (`fieldOK`), `FindRoute` returns a
descriptor, and every field of the pattern whose value does not begin with
`$` is present in it with its literal value unchanged. -/
theorem FindRoute_literal_field {R : Type} (re : RegexpLib R)
    (Routes : GoMap (GoMap GoString)) (path key : GoString) (fields : GoMap GoString)
    (reg : R) (k val : GoString)
    (hlit : mapGet Routes path = none)
    (hkey : mapGet Routes key = some fields)
    (hanchor : HasPrefix key (ascii "^") = true)
    (hcomp : re.Compile key = some reg)
    (hmatch : re.FindStringSubmatch reg path ≠ [])
    (honly : ∀ key' ∈ Routes.map Prod.fst, key' ≠ key →
      HasPrefix key' (ascii "^") = true → ∀ reg', re.Compile key' = some reg' →
        re.FindStringSubmatch reg' path = [])
    (hwf : mapWF fields)
    (hok : ∀ kv ∈ fields, fieldOK (re.FindStringSubmatch reg path) kv.2 = true)
    (hfield : (k, val) ∈ fields) (hval : HasPrefix val (ascii "$") = false) :
    ∃ route, FindRoute re Routes path = .ok route ∧ mapGet route k = some val := by
  have hres : ∀ r, resolveField (re.FindStringSubmatch reg path) r (k, val)
      = .ok (mapSet r k val) := by
    intro r
    simp [resolveField, hval]
  exact FindRoute_single_pattern re Routes path key fields reg k val hlit hkey hanchor hcomp
    hmatch honly
    (foldlM_resolveField_at _ fields hwf hok k val val hfield hres)

/-- C12, at a scenario: the pattern `^/user/(\d+)$` mapped to
`{template: "user", id: "$1"}` resolves `/user/42` to a descriptor with
`template == "user"`. -/
theorem FindRoute_literal_field_witness :
    FindRoute scenarioRegexp userRoutes (ascii "/user/42")
        = .ok [(ascii "template", ascii "user"), (ascii "id", ascii "42")] ∧
    ∃ route, FindRoute scenarioRegexp userRoutes (ascii "/user/42") = .ok route ∧
      mapGet route (ascii "template") = some (ascii "user") :=
  ⟨by decide,
   FindRoute_literal_field scenarioRegexp userRoutes (ascii "/user/42")
    (ascii "^/user/(\\d+)$") [(ascii "template", ascii "user"), (ascii "id", ascii "$1")]
    (ascii "^/user/(\\d+)$") (ascii "template") (ascii "user")
    (by decide) (by decide) (by decide) rfl (by decide)
    (by
      intro key' hmem hne hpre reg' _
      have hcases : key' = ascii "/home" ∨ key' = ascii "^/user/(\\d+)$" := by
        simpa [userRoutes] using hmem
      rcases hcases with h | h
      · subst h
        exact absurd hpre (by decide)
      · exact absurd h hne)
    (by decide) (by decide) (by decide) (by decide)⟩

/-- C12, where the claim as written fails. In each table the path `/user/42`
is not a literal key and the one pattern matches it with one capture group.
The value `$name` is not a `$` followed by one digit, and the field is not in
the descriptor at all; the value `$1abc` is not one either, and the field
holds the capture `42`, not the literal; and next to a lone `$` the literal
field `title` is in no descriptor, for `FindRoute` panics. -/
theorem dollar_values_not_copied :
    scenarioRegexp.FindStringSubmatch (ascii "^/user/(\\d+)$") (ascii "/user/42")
      = [ascii "/user/42", ascii "42"] ∧
    (mapGet dollarNameRoutes (ascii "/user/42") = none ∧
      (∀ d, ascii "$name" ≠ placeholder d) ∧
      FindRoute scenarioRegexp dollarNameRoutes (ascii "/user/42") = .ok []) ∧
    (mapGet dollarSuffixRoutes (ascii "/user/42") = none ∧
      (∀ d, ascii "$1abc" ≠ placeholder d) ∧
      FindRoute scenarioRegexp dollarSuffixRoutes (ascii "/user/42")
        = .ok [(ascii "ref", ascii "42")]) ∧
    (mapGet titleDollarRoutes (ascii "/user/42") = none ∧
      (∀ d, ascii "Users" ≠ placeholder d) ∧
      FindRoute scenarioRegexp titleDollarRoutes (ascii "/user/42")
        = .error Panic.indexOutOfRange) := by
  have hlen : ∀ (v : GoString) (d : Nat), v.length ≠ 2 → v ≠ placeholder d := by
    intro v d hv h
    apply hv
    rw [h]
    rfl
  refine ⟨by decide, ⟨by decide, ?_, by decide⟩, ⟨by decide, ?_, by decide⟩,
    ⟨by decide, ?_, by decide⟩⟩
  · exact fun d => hlen _ d (by decide)
  · exact fun d => hlen _ d (by decide)
  · exact fun d => hlen _ d (by decide)

/-- C13: for a path that is neither a literal key nor matched by any anchored
pattern, the patterns that do not compile included, `FindRoute` returns, and
what it returns is the empty descriptor, which has no template. -/
theorem FindRoute_no_match {R : Type} (re : RegexpLib R)
    (Routes : GoMap (GoMap GoString)) (path : GoString)
    (hlit : mapGet Routes path = none)
    (hnone : ∀ key ∈ Routes.map Prod.fst, HasPrefix key (ascii "^") = true →
      ∀ reg, re.Compile key = some reg → re.FindStringSubmatch reg path = []) :
    FindRoute re Routes path = .ok [] ∧
    ∀ route, FindRoute re Routes path = .ok route →
      route = [] ∧ mapGet route (ascii "template") = none := by
  have hret : FindRoute re Routes path = .ok [] := by
    simp only [FindRoute, hlit]
    exact foldlM_resolveKey_miss re Routes path Routes hnone []
  refine ⟨hret, ?_⟩
  intro route hroute
  rw [hret] at hroute
  cases hroute
  exact ⟨rfl, rfl⟩

/-- C13, at the scenarios: `/nowhere` matches nothing in the scenario table,
and with an engine in which no pattern compiles `/user/42` matches nothing
either. -/
theorem FindRoute_no_match_witness :
    (FindRoute scenarioRegexp scenarioRoutes (ascii "/nowhere") = .ok [] ∧
      ∀ route, FindRoute scenarioRegexp scenarioRoutes (ascii "/nowhere") = .ok route →
        route = [] ∧ mapGet route (ascii "template") = none) ∧
    (FindRoute noCompileRegexp scenarioRoutes (ascii "/user/42") = .ok [] ∧
      ∀ route, FindRoute noCompileRegexp scenarioRoutes (ascii "/user/42") = .ok route →
        route = [] ∧ mapGet route (ascii "template") = none) :=
  ⟨FindRoute_no_match scenarioRegexp scenarioRoutes (ascii "/nowhere") (by decide)
    (by
      intro key hmem hpre reg hc
      have hreg : reg = key := by
        have : some key = some reg := hc
        exact (Option.some.inj this).symm
      subst hreg
      have hcases : reg = ascii "/home" ∨ reg = ascii "^/user/(\\d+)$" := by
        simpa [scenarioRoutes] using hmem
      rcases hcases with h | h
      · subst h
        exact absurd hpre (by decide)
      · subst h
        decide),
   FindRoute_no_match noCompileRegexp scenarioRoutes (ascii "/user/42") (by decide)
    (by
      intro key _ _ reg hc
      exact absurd hc (by simp [noCompileRegexp]))⟩

/-- C11: for a path that is not a literal key, `FindRoute` is the merge, in
iteration order, of the resolved fields of every matching pattern: it looks at
every pattern of the table and stops at none. So in the descriptor it
returns each field holds the value of the latest resolved field that sets it,
and a field set only by an earlier pattern is there (`lastWrite`); and it
returns whenever every field of every matching pattern can be resolved. -/
theorem FindRoute_merges_matching {R : Type} (re : RegexpLib R)
    (Routes : GoMap (GoMap GoString)) (path : GoString)
    (hlit : mapGet Routes path = none) :
    FindRoute re Routes path
      = (allWrites (matchingPatterns re Routes path Routes)).map mergeWrites ∧
    (∀ route, FindRoute re Routes path = .ok route →
      ∃ ws, allWrites (matchingPatterns re Routes path Routes) = .ok ws ∧
        ∀ k, mapGet route k = lastWrite ws k) ∧
    ((∀ pm ∈ matchingPatterns re Routes path Routes, ∀ kv ∈ pm.1,
        fieldOK pm.2 kv.2 = true) →
      ∃ route, FindRoute re Routes path = .ok route) := by
  have heq : FindRoute re Routes path
      = (allWrites (matchingPatterns re Routes path Routes)).map mergeWrites := by
    simp only [FindRoute, hlit]
    exact foldlM_resolveKey_eq_allWrites re Routes path Routes []
  refine ⟨heq, ?_, FindRoute_ok_of_fieldOK re Routes path⟩
  intro route hroute
  rw [heq] at hroute
  cases hws : allWrites (matchingPatterns re Routes path Routes) with
  | error p =>
    rw [hws] at hroute
    cases hroute
  | ok ws =>
    rw [hws] at hroute
    cases hroute
    exact ⟨ws, rfl, mapGet_mergeWrites ws⟩

/-- C11, at a scenario: `^/user` and `^/user/4` both match `/user/42`; the
descriptor has the `template` of the later pattern, the `title` that the
earlier pattern alone sets, and the `page` that the later alone sets. -/
theorem FindRoute_merges_matching_witness :
    mapGet overlapRoutes (ascii "/user/42") = none ∧
    allWrites (matchingPatterns literalRegexp overlapRoutes (ascii "/user/42") overlapRoutes)
      = .ok [(ascii "template", ascii "user"), (ascii "title", ascii "Users"),
             (ascii "template", ascii "user4"), (ascii "page", ascii "/user/4")] ∧
    FindRoute literalRegexp overlapRoutes (ascii "/user/42")
      = .ok [(ascii "template", ascii "user4"), (ascii "title", ascii "Users"),
             (ascii "page", ascii "/user/4")] ∧
    FindRoute literalRegexp overlapRoutes (ascii "/user/42")
      = (allWrites (matchingPatterns literalRegexp overlapRoutes (ascii "/user/42")
          overlapRoutes)).map mergeWrites :=
  ⟨by decide, by decide, by decide,
   (FindRoute_merges_matching literalRegexp overlapRoutes (ascii "/user/42") (by decide)).1⟩

/-- C15: against a regexp engine whose non-nil submatch slices have one entry
more than the pattern has capture groups, and for a route table that is well
formed (`routesWellFormed`), every field of every pattern that matches the
path passes both lookups, `val[1]` and `match[d]` (`fieldOK`), and `FindRoute`
returns a descriptor. -/
theorem FindRoute_returns_of_wellFormed {R : Type} (re : RegexpLib R)
    (NumSubexp : R → Nat) (Routes : GoMap (GoMap GoString)) (path : GoString)
    (hgroups : ∀ reg s, re.FindStringSubmatch reg s ≠ [] →
      (re.FindStringSubmatch reg s).length = NumSubexp reg + 1)
    (hwf : routesWellFormed re NumSubexp Routes) :
    (∀ pm ∈ matchingPatterns re Routes path Routes, ∀ kv ∈ pm.1,
      fieldOK pm.2 kv.2 = true) ∧
    ∃ route, FindRoute re Routes path = .ok route := by
  have hok : ∀ pm ∈ matchingPatterns re Routes path Routes, ∀ kv ∈ pm.1,
      fieldOK pm.2 kv.2 = true :=
    fun pm hpm kv hkv =>
      fieldOK_of_wellFormed re NumSubexp Routes path hgroups hwf pm hpm kv hkv
  exact ⟨hok, FindRoute_ok_of_fieldOK re Routes path hok⟩

/-- C15, at a scenario: the table maps `^/user/(\d+)$`, a pattern with one
capture group, to `{template: "user", id: "$1"}`, and `/user/42` is resolved. -/
theorem FindRoute_returns_of_wellFormed_witness :
    routesWellFormed scenarioRegexp scenarioNumSubexp userRoutes ∧
    FindRoute scenarioRegexp userRoutes (ascii "/user/42")
      = .ok [(ascii "template", ascii "user"), (ascii "id", ascii "42")] ∧
    ((∀ pm ∈ matchingPatterns scenarioRegexp userRoutes (ascii "/user/42") userRoutes,
        ∀ kv ∈ pm.1, fieldOK pm.2 kv.2 = true) ∧
      ∃ route, FindRoute scenarioRegexp userRoutes (ascii "/user/42") = .ok route) :=
  ⟨userRoutes_wellFormed, by decide,
   FindRoute_returns_of_wellFormed scenarioRegexp scenarioNumSubexp userRoutes
    (ascii "/user/42") scenarioRegexp_groups userRoutes_wellFormed⟩

/-! ## Further properties of the connection actor -/

/-- C14: the room registry only grows. `c.Join(n)` on a name that is not
registered registers under `n` the room at the next free address, which is
named `n`, has an empty member set and, in a state whose registry names its
rooms, is no room registered before; and `Join`, `Leave`, `Emit`,
`HandleData`, the teardown of `ReadPump` and `ReadPump` as a whole keep every
entry of the registry, with the same room. -/
theorem RoomManager_only_grows {R : Type} (re : RegexpLib R) (ext : Collaborators)
    (c : ConnPtr) (a : App) :
    (∀ n, mapGet a.RoomManager n = none →
      mapGet (Conn.Join c n a).RoomManager n = some a.nextRoom ∧
      (Conn.Join c n a).nextRoom = a.nextRoom + 1 ∧
      ((Conn.Join c n a).rooms a.nextRoom).Name = n ∧
      ((Conn.Join c n a).rooms a.nextRoom).Members = [] ∧
      (RegistryNamed a → ∀ n' r', mapGet a.RoomManager n' = some r' → r' ≠ a.nextRoom)) ∧
    (∀ n, RegistryKept a (Conn.Join c n a)) ∧
    (∀ n, RegistryKept a (Conn.Leave c n a)) ∧
    (∀ data msg, RegistryKept a (Conn.Emit c data msg a)) ∧
    (∀ data msg a', HandleData re ext c data msg a = .ok a' → RegistryKept a a') ∧
    RegistryKept a (teardown c a) ∧
    (∀ frames err, RegistryKept a (ReadPump re ext c frames err a).1) := by
  refine ⟨?_, fun n => RegistryKept_Join c n a, fun n => RegistryKept_Leave c n a,
    fun data msg => RegistryKept_Emit c data msg a,
    fun data msg a' h => RegistryKept_HandleData re ext c data msg a a' h,
    RegistryKept_of_eq _ _ (teardown_RoomManager c a), ?_⟩
  · intro n hn
    obtain ⟨hRM, hnext, -, hname, -⟩ := Join_unregistered c n a hn
    refine ⟨?_, hnext, hname, ?_, ?_⟩
    · rw [hRM]
      exact mapGet_mapSet_self _ _ _
    · simp [Conn.Join, hn, Room.Join, NewRoom]
    · intro hreg n' r' hget
      exact Nat.ne_of_lt (hreg n' r' hget).1
  · intro frames err
    exact RegistryKept_trans a _ _ (readLoop_RegistryKept re ext c frames err a)
      (RegistryKept_of_eq _ _ (teardown_RoomManager c _))

/-- C14, at the scenario: `c1` joins `attic`, which is not registered; the
registry gains `attic` at address 2 and keeps `root` and `lobby`; and after
`c2` leaves `lobby` and its inbound loop ends on a clean close, `root` and
`lobby` are still registered with the same rooms. -/
theorem RoomManager_only_grows_witness :
    scenarioApp.RoomManager = [(ascii "root", 0), (ascii "lobby", 1)] ∧
    (Conn.Join 0 (ascii "attic") scenarioApp).RoomManager
      = [(ascii "root", 0), (ascii "lobby", 1), (ascii "attic", 2)] ∧
    (ReadPump scenarioRegexp scenarioCollaborators 1 [] ReadError.EOF
      (Conn.Leave 1 (ascii "lobby") scenarioApp)).1.RoomManager
      = [(ascii "root", 0), (ascii "lobby", 1)] ∧
    RegistryKept scenarioApp (Conn.Join 0 (ascii "attic") scenarioApp) ∧
    RegistryKept scenarioApp (ReadPump scenarioRegexp scenarioCollaborators 1 []
      ReadError.EOF scenarioApp).1 :=
  ⟨by decide, by decide, by decide,
   (RoomManager_only_grows scenarioRegexp scenarioCollaborators 0 scenarioApp).2.1
    (ascii "attic"),
   (RoomManager_only_grows scenarioRegexp scenarioCollaborators 1 scenarioApp).2.2.2.2.2.2
    [] ReadError.EOF⟩

end Rtgo
